import Mathlib

/-! Shallow embedding of `app/src/crypto.c`.

The C functions of `crypto.c` are translated to Lean functions over an explicit
memory model.  A pointer is modelled by the byte region it addresses, a value of
type `Mem`; C globals and out-parameters are passed in and handed back in a
state record; the secure element, the hash primitives, the Bech32 encoder and
the transaction buffer are fields of a `Platform` record, so every theorem
holds for every implementation of them.
-/

namespace LedgerCosmos

/-! ## Memory -/

/-- A byte region addressed from its base pointer: `p i` is the byte `p[i]`. -/
abbrev Mem := Nat → Nat

/-- The macro `MEMZERO(dst, n)`, that is `memset(dst, 0, n)`. -/
def MEMZERO (dst : Mem) (n : Nat) : Mem :=
  fun i => if i < n then 0 else dst i

/-- The macro `MEMCPY(dst, src, n)` and `memcpy(dst, src, n)`, for regions that do not
overlap. -/
def MEMCPY (dst src : Mem) (n : Nat) : Mem :=
  fun i => if i < n then src i else dst i

/-- The assignment `p[i] = v`. -/
def store (p : Mem) (i v : Nat) : Mem :=
  fun j => if j = i then v else p j

/-- The pointer `p + k`. -/
def ptrAdd (p : Mem) (k : Nat) : Mem :=
  fun i => p (k + i)

/-- The region `p` after a callee that was handed `p + k` left `q` there. -/
def writeBack (p : Mem) (k : Nat) (q : Mem) : Mem :=
  fun i => if i < k then p i else q (i - k)

/-- The `n` bytes `p[0], …, p[n-1]`, as a callee that is handed `(p, n)` reads them. -/
def readBytes (p : Mem) (n : Nat) : List Nat :=
  (List.range n).map p

/-- The loop `for (i = 0; i < n; i++) body`. -/
def forLoop {σ : Type} (n : Nat) (body : Nat → σ → σ) (s : σ) : σ :=
  (List.range n).foldl (fun acc i => body i acc) s

/-! ## Constants and types of the absent headers -/

/-- Modelled from the spec: the error enumeration `zxerr_t` of `zxmacros.h`, which
is not among the sources.  The four codes the spec names are constructors; any
other enumerator (the Bech32 encoder may report one) is `zxerr_other`. -/
inductive zxerr_t where
  | zxerr_ok
  | zxerr_buffer_too_small
  | zxerr_invalid_crypto_settings
  | zxerr_ledger_api_error
  | zxerr_other (code : Nat)
  deriving DecidableEq, Repr

open zxerr_t

/-- Modelled from the spec: `PK_LEN_SECP256K1` of `coin.h` (absent), the length of
the 33-byte compressed public key. -/
def PK_LEN_SECP256K1 : Nat := 33

/-- Modelled from the spec: `HDPATH_LEN_DEFAULT` of `coin.h` (absent), a derivation
path has exactly 5 components. -/
def HDPATH_LEN_DEFAULT : Nat := 5

/-- Modelled from the spec: `CX_SHA256_SIZE` of the SDK (absent), the 32-byte digest
length. -/
def CX_SHA256_SIZE : Nat := 32

/-- Modelled from the spec: `CX_RIPEMD160_SIZE` of the SDK (absent), the 20-byte
digest length. -/
def CX_RIPEMD160_SIZE : Nat := 20

/-- Modelled from the spec: `APDU_CODE_DATA_INVALID` of `apdu_codes.h` (absent), the
protocol-level "data invalid" status word; only its identity matters. -/
def APDU_CODE_DATA_INVALID : Nat := 0x6984

/-- The SDK type `cx_ecfp_public_key_t` (declared in the absent `cx.h`): the curve,
the length of the point and the 65-byte point `W`. -/
structure cx_ecfp_public_key_t where
  curve : Nat
  W_len : Nat
  W : Mem

/-- Result of a call that may raise an SDK exception: it either completes, or
raises `e`; in both cases `v` is what the call left in its out-parameters. -/
inductive Try (α : Type) where
  | done (v : α)
  | raised (e : Nat) (v : α)

/-- Sequencing inside a `TRY` block: when the call completed, `put` stores its
out-parameters and the block goes on with `k`; when it raised, the block is left
at once with the out-parameters stored. -/
def Try.andThen {α σ : Type} (t : Try α) (put : α → σ) (k : σ → Try σ) : Try σ :=
  match t with
  | .done v => k (put v)
  | .raised e v => .raised e (put v)

/-- How a C function is left: by `return ret`, or by an exception `THROW(code)`
that propagates to the caller; `st` is the memory it leaves behind. -/
inductive Outcome (ρ σ : Type) where
  | returned (ret : ρ) (st : σ)
  | thrown (code : Nat) (st : σ)

/-- The external collaborators of `crypto.c`: constants and functions of the SDK
(`cx.h`, `os.h`), the Bech32 encoder of `bech32.h` and the transaction buffer of
`tx.h`.  None of them is among the sources, so each is a parameter. -/
structure Platform where
  CX_CURVE_256K1 : Nat
  CX_CURVE_SECP256K1 : Nat
  CX_RND_RFC6979 : Nat
  CX_LAST : Nat
  CX_SHA256 : Nat
  /-- The value of `sizeof(cx_ecfp_private_key_t)`. -/
  sizeof_cx_ecfp_private_key_t : Nat
  /-- The call `os_perso_derive_node_bip32(curve, path, pathLength, privateKey, NULL)`;
  the result is the content of `privateKey`. -/
  os_perso_derive_node_bip32 : (curve : Nat) → (path : List Nat) → (pathLength : Nat) →
    (privateKey : Mem) → Try Mem
  /-- The call `cx_ecfp_init_private_key(curve, rawkey, key_len, key)`; the result is
  the object representation of `*key`. -/
  cx_ecfp_init_private_key : (curve : Nat) → (rawkey : Mem) → (key_len : Nat) →
    (key : Mem) → Try Mem
  /-- The call `cx_ecfp_init_public_key(curve, NULL, 0, key)`. -/
  cx_ecfp_init_public_key : (curve : Nat) → (key : cx_ecfp_public_key_t) →
    Try cx_ecfp_public_key_t
  /-- The call `cx_ecfp_generate_pair(curve, pubkey, privkey, keepprivate)`. -/
  cx_ecfp_generate_pair : (curve : Nat) → (pubkey : cx_ecfp_public_key_t) →
    (privkey : Mem) → (keepprivate : Nat) → Try (cx_ecfp_public_key_t × Mem)
  /-- The call `cx_ecdsa_sign(key, mode, hashID, hash, hash_len, sig, sig_len, info)`;
  the result is the content of `sig`, the value of `*info` and the returned `int`
  (the last is meaningless when the call raised). -/
  cx_ecdsa_sign : (key : Mem) → (mode : Nat) → (hashID : Nat) → (hash : List Nat) →
    (hash_len : Nat) → (sig : Mem) → (sig_len : Nat) → (info : Nat) →
    Try (Mem × Nat × Int)
  /-- Keccak-256: `cx_keccak_init(ctx, 256)` followed by `cx_hash(ctx, CX_LAST, in,
  len, out, 32)`, as a function from the bytes hashed to the digest. -/
  keccak256 : List Nat → Mem
  /-- SHA-256: `cx_hash_sha256(in, len, out, 32)`. -/
  sha256 : List Nat → Mem
  /-- RIPEMD-160: `cx_ripemd160_init(ctx)` followed by `cx_hash(ctx, CX_LAST, in, len,
  out, 20)`. -/
  ripemd160 : List Nat → Mem
  /-- The call `bech32EncodeFromBytes(out, out_len, hrp, in, in_len, pad)`; `inp` is
  the `in_len` bytes at `in`; the result is the error code and the content of
  `out`. -/
  bech32EncodeFromBytes : (out : Mem) → (out_len : Nat) → (hrp : Mem) →
    (inp : List Nat) → (in_len : Nat) → (pad : Nat) → zxerr_t × Mem
  /-- The pointer that `tx_get_buffer()` returns. -/
  tx_get_buffer : Mem
  /-- The value that `tx_get_buffer_length()` returns. -/
  tx_get_buffer_length : Nat

/-! ## `crypto_extractPublicKey` (lines 33-81) -/

/-- The automatic variables `cx_publicKey`, `cx_privateKey`, `privateKeyData` of
`crypto_extractPublicKey` and of `crypto_fillETHAddress`. -/
structure KeyLocals where
  cx_publicKey : cx_ecfp_public_key_t
  cx_privateKey : Mem
  privateKeyData : Mem

/-- The body of the `TRY` block of lines 45-54 (and, with `hdPath` for `path`, of
lines 274-283): the four secure-element calls, in order. -/
def generateKeyPair (P : Platform) (path : List Nat) (l : KeyLocals) : Try KeyLocals :=
  (P.os_perso_derive_node_bip32 P.CX_CURVE_256K1 path HDPATH_LEN_DEFAULT
      l.privateKeyData).andThen
    (fun d => { l with privateKeyData := d }) fun l =>
  (P.cx_ecfp_init_private_key P.CX_CURVE_256K1 l.privateKeyData 32
      l.cx_privateKey).andThen
    (fun k => { l with cx_privateKey := k }) fun l =>
  (P.cx_ecfp_init_public_key P.CX_CURVE_256K1 l.cx_publicKey).andThen
    (fun pk => { l with cx_publicKey := pk }) fun l =>
  (P.cx_ecfp_generate_pair P.CX_CURVE_256K1 l.cx_publicKey l.cx_privateKey 1).andThen
    (fun r => { l with cx_publicKey := r.1, cx_privateKey := r.2 }) fun l =>
  .done l

/-- The `BEGIN_TRY … END_TRY` statement of lines 42-63 (and 271-292): `err` starts
as `zxerr_ok`, `CATCH_OTHER` handles every exception by setting
`zxerr_ledger_api_error`, and `FINALLY` clears the private key on both paths. -/
def tryGenerateKeyPair (P : Platform) (path : List Nat) (l : KeyLocals) :
    zxerr_t × KeyLocals :=
  let r : zxerr_t × KeyLocals :=
    match generateKeyPair P path l with
    | .done l1 => (zxerr_ok, l1)
    | .raised _ l1 => (zxerr_ledger_api_error, l1)
  (r.1, { r.2 with
    cx_privateKey := MEMZERO r.2.cx_privateKey P.sizeof_cx_ecfp_private_key_t
    privateKeyData := MEMZERO r.2.privateKeyData 32 })

/-- Memory that `crypto_extractPublicKey` leaves: the caller's `pubKey` and its own
automatic variables at the moment of the return. -/
structure PubKeyState where
  pubKey : Mem
  locals : KeyLocals

/-- The function `crypto_extractPublicKey(path, pubKey, pubKeyLen)`; `stack` is
the indeterminate initial content of its automatic variables. -/
def crypto_extractPublicKey (P : Platform) (path : List Nat) (pubKey : Mem)
    (pubKeyLen : Nat) (stack : KeyLocals) : Outcome zxerr_t PubKeyState :=
  if pubKeyLen < PK_LEN_SECP256K1 then
    .returned zxerr_invalid_crypto_settings ⟨pubKey, stack⟩
  else
    let r := tryGenerateKeyPair P path stack
    let err := r.1
    let l := r.2
    if err ≠ zxerr_ok then
      .returned err ⟨pubKey, l⟩
    else
      -- Format pubkey
      let pubKey := forLoop 32 (fun i pk => store pk i (l.cx_publicKey.W (64 - i))) pubKey
      let W := store l.cx_publicKey.W 0 (if l.cx_publicKey.W 64 &&& 1 ≠ 0 then 0x03 else 0x02)
      let pubKey := if W 32 &&& 1 ≠ 0 then store pubKey 31 (pubKey 31 ||| 0x80) else pubKey
      let pubKey := MEMCPY pubKey W PK_LEN_SECP256K1
      .returned err ⟨pubKey, { l with cx_publicKey := { l.cx_publicKey with W := W } }⟩

/-! ## `keccak_hash_message` and `crypto_sign` (lines 83-140) -/

/-- The function `keccak_hash_message(message, message_len, signature)`; the result
is the content of the output region `signature`. -/
def keccak_hash_message (P : Platform) (message : Mem) (message_len : Nat)
    (signature : Mem) : Mem :=
  MEMCPY signature (P.keccak256 (readBytes message message_len)) CX_SHA256_SIZE

/-- The variables that the `TRY` block of `crypto_sign` updates: the caller's
`signature` region and the automatic variables `cx_privateKey`, `privateKeyData`,
`info` and `signatureLength`. -/
structure SignFrame where
  signature : Mem
  cx_privateKey : Mem
  privateKeyData : Mem
  info : Nat
  signatureLength : Int

/-- The body of the `TRY` block of lines 108-127.  When `cx_ecdsa_sign` raises, the
assignment to `signatureLength` does not take place. -/
def signDigest (P : Platform) (hdPath : List Nat) (messageDigest : Mem)
    (signatureMaxlen : Nat) (f : SignFrame) : Try SignFrame :=
  (P.os_perso_derive_node_bip32 P.CX_CURVE_SECP256K1 hdPath HDPATH_LEN_DEFAULT
      f.privateKeyData).andThen
    (fun d => { f with privateKeyData := d }) fun f =>
  (P.cx_ecfp_init_private_key P.CX_CURVE_SECP256K1 f.privateKeyData 32
      f.cx_privateKey).andThen
    (fun k => { f with cx_privateKey := k }) fun f =>
  match P.cx_ecdsa_sign f.cx_privateKey (P.CX_RND_RFC6979 ||| P.CX_LAST) P.CX_SHA256
      (readBytes messageDigest CX_SHA256_SIZE) CX_SHA256_SIZE f.signature signatureMaxlen
      f.info with
  | .done r => .done { f with signature := r.1, info := r.2.1, signatureLength := r.2.2 }
  | .raised e r => .raised e { f with signature := r.1, info := r.2.1 }

/-- Memory that `crypto_sign` leaves: the caller's `signature` and `*sigSize`, and
its own frame at the moment of the return. -/
structure SignState where
  signature : Mem
  sigSize : Nat
  frame : SignFrame

/-- The function `crypto_sign(signature, signatureMaxlen, sigSize)`, reading the
global `hdPath`; `stack_cx_privateKey` and `stack_privateKeyData` are the
indeterminate initial contents of the two automatic variables. -/
def crypto_sign (P : Platform) (hdPath : List Nat) (signature : Mem)
    (signatureMaxlen : Nat) (stack_cx_privateKey stack_privateKeyData : Mem) :
    Outcome zxerr_t SignState :=
  let messageDigest := MEMZERO (fun _ => 0) CX_SHA256_SIZE
  -- Hash it
  let message := P.tx_get_buffer
  let messageLen := P.tx_get_buffer_length % 2 ^ 16
  let messageDigest := keccak_hash_message P message messageLen messageDigest
  let f : SignFrame := ⟨signature, stack_cx_privateKey, stack_privateKeyData, 0, 0⟩
  let r : zxerr_t × SignFrame :=
    match signDigest P hdPath messageDigest signatureMaxlen f with
    | .done f1 => (zxerr_ok, f1)
    | .raised _ f1 => (zxerr_ledger_api_error, f1)
  let f : SignFrame := { r.2 with
    cx_privateKey := MEMZERO r.2.cx_privateKey P.sizeof_cx_ecfp_private_key_t
    privateKeyData := MEMZERO r.2.privateKeyData 32 }
  .returned r.1 ⟨f.signature, (f.signatureLength % 2 ^ 16).toNat, f⟩

/-! ## The HRP registry: `extractHRP` and `crypto_set_hrp` (lines 27-28, 163-192) -/

/-- The globals `bech32_hrp_len` (a `uint8_t`) and `bech32_hrp` (an array of
`MAX_BECH32_HRP_LEN + 1` characters). -/
structure HrpState where
  bech32_hrp_len : Nat
  bech32_hrp : Mem

/-- The function `extractHRP(rx, offset)`.  `MAX_BECH32_HRP_LEN` is the constant of
the absent `coin.h`; `G_io_apdu_buffer` is the request buffer of the SDK; `rx` and
`offset` are `uint32_t`, so `offset + 1` is computed modulo `2^32`. -/
def extractHRP (MAX_BECH32_HRP_LEN : Nat) (G_io_apdu_buffer : Mem) (rx offset : Nat)
    (g : HrpState) : Outcome Nat HrpState :=
  if rx < (offset + 1) % 2 ^ 32 then
    .thrown APDU_CODE_DATA_INVALID g
  else
    let g : HrpState := { g with bech32_hrp := MEMZERO g.bech32_hrp MAX_BECH32_HRP_LEN }
    let g : HrpState := { g with bech32_hrp_len := G_io_apdu_buffer offset }
    if g.bech32_hrp_len = 0 ∨ g.bech32_hrp_len > MAX_BECH32_HRP_LEN then
      .thrown APDU_CODE_DATA_INVALID g
    else
      let g : HrpState := { g with
        bech32_hrp := MEMCPY g.bech32_hrp (ptrAdd (ptrAdd G_io_apdu_buffer offset) 1)
          g.bech32_hrp_len }
      let g : HrpState := { g with bech32_hrp := store g.bech32_hrp g.bech32_hrp_len 0 }
      .returned g.bech32_hrp_len g

/-- The function `ripemd160_32(out, in)`; the result is the content of `out`. -/
def ripemd160_32 (P : Platform) (out inp : Mem) : Mem :=
  MEMCPY out (P.ripemd160 (readBytes inp CX_SHA256_SIZE)) CX_RIPEMD160_SIZE

/-- The libc call `snprintf(dst, size, "%s", p)`, where the list `p` holds the
characters of the NUL-terminated string `p` before its terminator: at most
`size - 1` characters are copied and a NUL follows them. -/
def snprintf_s (dst : Mem) (size : Nat) (p : List Nat) : Mem :=
  if size = 0 then dst
  else
    let n := min p.length (size - 1)
    store (MEMCPY dst (fun i => p.getD i 0) n) n 0

/-- The function `crypto_set_hrp(p)`; the list `p` holds the characters of the
NUL-terminated string before its terminator, so `strlen(p)` is its length, and
the assignment to the `uint8_t` global keeps the length modulo `2^8`. -/
def crypto_set_hrp (MAX_BECH32_HRP_LEN : Nat) (p : List Nat) (g : HrpState) : HrpState :=
  let g : HrpState := { g with bech32_hrp_len := p.length % 2 ^ 8 }
  if g.bech32_hrp_len < MAX_BECH32_HRP_LEN then
    { g with bech32_hrp := snprintf_s g.bech32_hrp (MAX_BECH32_HRP_LEN + 1) p }
  else g

/-! ## `crypto_fillAddress` (lines 194-215) -/

/-- Scan of `strlen(s)` over a region of `bound` cells starting at cell `i`. -/
def strlenFrom (s : Mem) : Nat → Nat → Nat
  | 0, i => i
  | fuel + 1, i => if s i = 0 then i else strlenFrom s fuel (i + 1)

/-- The libc call `strlen(s)` on a region of `bound` cells: the index of the first
NUL among them.  When there is none the C function reads past the region; the
model then yields `bound`. -/
def strlen (s : Mem) (bound : Nat) : Nat :=
  strlenFrom s bound 0

/-- Memory that `crypto_fillAddress` leaves: the caller's `buffer` and
`*addrResponseLen`. -/
structure AddrState where
  buffer : Mem
  addrResponseLen : Nat

/-- The function `crypto_fillAddress(buffer, buffer_len, addrResponseLen)`, reading
the globals `hdPath` and `bech32_hrp`; `addrResponseLen` is the value of
`*addrResponseLen` before the call and `stack` the indeterminate initial content
of the automatic variables of the callee `crypto_extractPublicKey`.  The macro
`CHECK_ZXERR(CALL)` of the absent `zxmacros.h` returns the error of `CALL` when it
is not `zxerr_ok`. -/
def crypto_fillAddress (P : Platform) (hdPath : List Nat) (bech32_hrp : Mem)
    (buffer : Mem) (buffer_len : Nat) (addrResponseLen : Nat) (stack : KeyLocals) :
    Outcome zxerr_t AddrState :=
  if buffer_len < PK_LEN_SECP256K1 + 50 then
    .returned zxerr_buffer_too_small ⟨buffer, addrResponseLen⟩
  else
    -- extract pubkey
    match crypto_extractPublicKey P hdPath buffer buffer_len stack with
    | .thrown code s => .thrown code ⟨s.pubKey, addrResponseLen⟩
    | .returned err s =>
      let buffer := s.pubKey
      if err ≠ zxerr_ok then
        .returned err ⟨buffer, addrResponseLen⟩
      else
        -- Hash it
        let hashed1_pk :=
          MEMCPY (fun _ => 0) (P.sha256 (readBytes buffer PK_LEN_SECP256K1)) CX_SHA256_SIZE
        let hashed2_pk := ripemd160_32 P (fun _ => 0) hashed1_pk
        let addr := ptrAdd buffer PK_LEN_SECP256K1
        let e := P.bech32EncodeFromBytes addr (buffer_len - PK_LEN_SECP256K1) bech32_hrp
          (readBytes hashed2_pk CX_RIPEMD160_SIZE) CX_RIPEMD160_SIZE 1
        let buffer := writeBack buffer PK_LEN_SECP256K1 e.2
        if e.1 ≠ zxerr_ok then
          .returned e.1 ⟨buffer, addrResponseLen⟩
        else
          let addr := ptrAdd buffer PK_LEN_SECP256K1
          let addrResponseLen :=
            (PK_LEN_SECP256K1 + strlen addr (buffer_len - PK_LEN_SECP256K1)) % 2 ^ 16
          .returned zxerr_ok ⟨buffer, addrResponseLen⟩

/-! ## `crypto_eth_address_bytes_to_string` and `crypto_fillETHAddress` (lines 217-319) -/

/-- The array `HEXDIGITS[] = "0123456789abcdef"`, with its terminating NUL. -/
def HEXDIGITS : List Nat :=
  [48, 49, 50, 51, 52, 53, 54, 55, 56, 57, 97, 98, 99, 100, 101, 102, 0]

/-- The function `crypto_eth_address_bytes_to_string(sha3Context, address, result)`;
the result is the returned `size_t` and the content of `result`.  The context is
re-initialised before its only use, so it is not a parameter.  `locals_union` is
one region that both `tmp` and `hashChecksum` name; its initial content is
indeterminate and every cell is written before it is read. -/
def crypto_eth_address_bytes_to_string (P : Platform) (address result : Mem) : Nat × Mem :=
  let result0 := store (store result 0 48) 1 120
  let result := ptrAdd result0 2
  let locals_union : Mem := fun _ => 0
  let offset := 0
  let locals_union := forLoop 20 (fun i tmp =>
    let digit := address i
    let tmp := store tmp (offset + 2 * i) (HEXDIGITS.getD ((digit >>> 4) &&& 0x0f) 0)
    store tmp (offset + 2 * i + 1) (HEXDIGITS.getD (digit &&& 0x0f) 0)) locals_union
  let locals_union :=
    MEMCPY locals_union (P.keccak256 (readBytes locals_union (offset + 40))) 32
  let result := forLoop 40 (fun i res =>
    let digit := address (i / 2)
    let digit := if i % 2 = 0 then (digit >>> 4) &&& 0x0f else digit &&& 0x0f
    if digit < 10 then
      store res i (HEXDIGITS.getD digit 0)
    else
      let v := (locals_union (i / 2) >>> (4 * (1 - i % 2))) &&& 0x0f
      if v ≥ 8 then
        store res i ((((HEXDIGITS.getD digit 0 : Nat) : Int) - 97 + 65) % 2 ^ 8).toNat
      else
        store res i (HEXDIGITS.getD digit 0)) result
  (42, writeBack result0 2 result)

/-- Memory that `crypto_fillETHAddress` leaves: the caller's `buffer` and
`*addrResponseLen`, and its own automatic variables at the moment of the return. -/
structure EthAddrState where
  buffer : Mem
  addrResponseLen : Nat
  locals : KeyLocals

/-- The function `crypto_fillETHAddress(buffer, buffer_len, addrResponseLen)`,
reading the global `hdPath`; `addrResponseLen` is the value of `*addrResponseLen`
before the call and `stack` the indeterminate initial content of the automatic
variables. -/
def crypto_fillETHAddress (P : Platform) (hdPath : List Nat) (buffer : Mem)
    (buffer_len : Nat) (addrResponseLen : Nat) (stack : KeyLocals) :
    Outcome zxerr_t EthAddrState :=
  if buffer_len < PK_LEN_SECP256K1 + 20 then
    .returned zxerr_buffer_too_small ⟨buffer, addrResponseLen, stack⟩
  else
    -- extract publickey
    let r := tryGenerateKeyPair P hdPath stack
    let err := r.1
    let l := r.2
    if err ≠ zxerr_ok then
      .returned err ⟨buffer, addrResponseLen, l⟩
    else
      -- Format pubkey
      let buffer := forLoop 32 (fun i b => store b i (l.cx_publicKey.W (64 - i))) buffer
      let W := store l.cx_publicKey.W 0 (if l.cx_publicKey.W 64 &&& 1 ≠ 0 then 0x03 else 0x02)
      let buffer := if W 32 &&& 1 ≠ 0 then store buffer 31 (buffer 31 ||| 0x80) else buffer
      -- Copy compressed public to buffer
      let buffer := MEMCPY buffer W PK_LEN_SECP256K1
      -- uncompressed public key to ETH address bytes
      let addr := ptrAdd buffer PK_LEN_SECP256K1
      let hashAddress := MEMCPY (fun _ => 0) (P.keccak256 (readBytes (ptrAdd W 1) 64)) 32
      -- convert Address Bytes to String
      let s := crypto_eth_address_bytes_to_string P (ptrAdd hashAddress 12) addr
      let buffer := writeBack buffer PK_LEN_SECP256K1 s.2
      let addrResponseLen := (PK_LEN_SECP256K1 + s.1) % 2 ^ 16
      .returned zxerr_ok
        ⟨buffer, addrResponseLen, { l with cx_publicKey := { l.cx_publicKey with W := W } }⟩

/-! ## Concrete platforms

Executable instances of `Platform`, on which the functions above can be run. -/

/-- A sample curve point `0x04 ‖ X ‖ Y` with `X[k] = 2k + 7` and `Y[k] = 3k + 10`,
so the last byte of `Y` is 103 (odd). -/
def samplePoint : Mem :=
  fun i => if i = 0 then 4 else if i ≤ 32 then 2 * (i - 1) + 7 else 3 * (i - 33) + 10

/-- A toy digest: byte `i` is `(sum of the message + 37 * i + 5) mod 256`. -/
def toyDigest (msg : List Nat) : Mem :=
  fun i => (msg.sum + 37 * i + 5) % 256

/-- A software platform whose secure-element call number `fault` (counted from 1 in
the order derive, init private, init public, generate pair or sign) raises
exception 7; with `fault = 0` every call succeeds.  The key pair it generates has
the public point `samplePoint`; its signatures are 70 bytes long; its Bech32
encoder writes the three characters of `hrp` followed by `1q` and a NUL. -/
def samplePlatform (fault : Nat) : Platform where
  CX_CURVE_256K1 := 33
  CX_CURVE_SECP256K1 := 33
  CX_RND_RFC6979 := 0x600
  CX_LAST := 1
  CX_SHA256 := 3
  sizeof_cx_ecfp_private_key_t := 40
  os_perso_derive_node_bip32 := fun _ path _ _ =>
    if fault = 1 then .raised 7 (fun i => i + 1) else .done (fun i => path.sum + i + 1)
  cx_ecfp_init_private_key := fun curve rawkey _ _ =>
    if fault = 2 then .raised 7 (fun _ => 9) else .done (fun i => if i = 0 then curve else rawkey (i - 1))
  cx_ecfp_init_public_key := fun curve key =>
    if fault = 3 then .raised 7 key else .done ⟨curve, 0, key.W⟩
  cx_ecfp_generate_pair := fun curve _ privkey _ =>
    if fault = 4 then .raised 7 (⟨curve, 0, fun _ => 1⟩, privkey)
    else .done (⟨curve, 65, samplePoint⟩, privkey)
  cx_ecdsa_sign := fun key _ _ hash _ sig _ _ =>
    if fault = 4 then .raised 7 (fun i => if i < 8 then 48 else sig i, 0, 0)
    else .done (fun i => if i < 70 then (key i + hash.sum + i) % 256 else sig i, 1, 70)
  keccak256 := toyDigest
  sha256 := toyDigest
  ripemd160 := toyDigest
  bech32EncodeFromBytes := fun out out_len hrp _ _ _ =>
    if out_len < 6 then (zxerr_buffer_too_small, out)
    else (zxerr_ok, fun i => if i < 3 then hrp i else if i = 3 then 49 else if i = 4 then 113 else 0)
  tx_get_buffer := fun i => i % 256
  tx_get_buffer_length := 100

/-- An arbitrary non-zero initial content of the automatic key variables. -/
def sampleStack : KeyLocals :=
  ⟨⟨1, 2, fun i => i + 3⟩, fun i => i + 4, fun i => i + 5⟩

/-- The HRP `"fx"` stored in the globals. -/
def sampleHrpState : HrpState :=
  ⟨2, fun i => if i = 0 then 102 else if i = 1 then 120 else 0⟩

/-- A NUL-terminated string of 256 letters `a`. -/
def string256 : List Nat :=
  List.replicate 256 97

/-- A NUL-terminated string of 100 letters `a`. -/
def string100 : List Nat :=
  List.replicate 100 97

/-- A sample 20-byte address with digits and letters among its nibbles. -/
def sampleAddress : Mem :=
  fun i => (171 + 5 * i) % 256

/-- A transaction buffer whose byte 1 is 1 and whose other bytes are 0. -/
def spikeBuffer : Mem :=
  fun i => if i = 1 then 1 else 0

/-- The sample platform with a transaction of 65537 bytes in `spikeBuffer`. -/
def longTxPlatform : Platform :=
  { samplePlatform 0 with tx_get_buffer := spikeBuffer, tx_get_buffer_length := 65537 }

/-- The sample platform with a signing oracle that completes and returns the `int` -1,
leaving the signature region as it was. -/
def negativeLengthPlatform : Platform :=
  { samplePlatform 0 with cx_ecdsa_sign := fun _ _ _ _ _ sig _ _ => .done (sig, 0, -1) }

/-! ## Vocabulary of the specification -/

/-- Nibble `i` of a byte region: the high nibble of byte `i / 2` when `i` is even,
its low nibble when `i` is odd. -/
def nibble (a : Mem) (i : Nat) : Nat :=
  if i % 2 = 0 then a (i / 2) / 16 % 16 else a (i / 2) % 16

/-- The lower-case hexadecimal character of a nibble: `'0' + d` or `'a' + (d - 10)`. -/
def lowerHexChar (d : Nat) : Nat :=
  if d < 10 then 48 + d else 97 + (d - 10)

/-- The upper-case hexadecimal character of a nibble: `'0' + d` or `'A' + (d - 10)`. -/
def upperHexChar (d : Nat) : Nat :=
  if d < 10 then 48 + d else 65 + (d - 10)

/-- The 40-character lower-case hexadecimal ASCII text of a 20-byte address. -/
def lowerHex (a : Mem) : List Nat :=
  (List.range 40).map fun i => lowerHexChar (nibble a i)

/-- The EIP-55 character for nibble `i` of the address `a` under the checksum digest
`h` (spec §4.3): a digit stays as it is, a letter is upper-case exactly when
nibble `i` of `h` is at least 8. -/
def eip55Char (a h : Mem) (i : Nat) : Nat :=
  if nibble a i < 10 then lowerHexChar (nibble a i)
  else if nibble h i ≥ 8 then upperHexChar (nibble a i)
  else lowerHexChar (nibble a i)

/-- The compressed key `prefix ‖ X` of a point `W`, followed by the bytes of `rest`
from index 33 on. -/
def compressInto (W rest : Mem) : Mem :=
  fun j => if j < 33 then (if j = 0 then (if W 64 % 2 = 0 then 0x02 else 0x03) else W j)
    else rest j

/-- Lower-casing of an ASCII character: `'A'..'Z'` become `'a'..'z'`. -/
def asciiToLower (c : Nat) : Nat :=
  if 65 ≤ c ∧ c ≤ 90 then c + 32 else c

/-- The value of a lower-case hexadecimal character (0 for any other character). -/
def hexValue (c : Nat) : Nat :=
  if 48 ≤ c ∧ c ≤ 57 then c - 48 else if 97 ≤ c ∧ c ≤ 102 then c - 87 else 0

/-- Hex-decoding of the text `s`: byte `k` has the high nibble `s[2k]` and the low
nibble `s[2k+1]`. -/
def hexDecode (s : Mem) : Mem :=
  fun k => 16 * hexValue (s (2 * k)) + hexValue (s (2 * k + 1))

/-- The 40 hexadecimal characters after `0x` of a 42-character address string,
lower-cased and hex-decoded. -/
def decodeAddressString (s : Mem) : Mem :=
  hexDecode (fun j => asciiToLower (s (2 + j)))

/-- The zero-initialised globals `bech32_hrp_len` and `bech32_hrp` at program start. -/
def initialHrpState : HrpState :=
  ⟨0, fun _ => 0⟩

/-- The states of the HRP globals that the program can be in: those reached from the
zero-initialised globals by calls of `crypto_set_hrp` and `extractHRP` with any
arguments, whether `extractHRP` returns or aborts. -/
inductive Reachable (MAX_BECH32_HRP_LEN : Nat) : HrpState → Prop where
  | init : Reachable MAX_BECH32_HRP_LEN initialHrpState
  | set_hrp (p : List Nat) {g : HrpState} :
      Reachable MAX_BECH32_HRP_LEN g →
      Reachable MAX_BECH32_HRP_LEN (crypto_set_hrp MAX_BECH32_HRP_LEN p g)
  | extract_returned (G_io_apdu_buffer : Mem) (rx offset : Nat) {g g' : HrpState} {n : Nat} :
      Reachable MAX_BECH32_HRP_LEN g →
      extractHRP MAX_BECH32_HRP_LEN G_io_apdu_buffer rx offset g = .returned n g' →
      Reachable MAX_BECH32_HRP_LEN g'
  | extract_thrown (G_io_apdu_buffer : Mem) (rx offset : Nat) {g g' : HrpState} {code : Nat} :
      Reachable MAX_BECH32_HRP_LEN g →
      extractHRP MAX_BECH32_HRP_LEN G_io_apdu_buffer rx offset g = .thrown code g' →
      Reachable MAX_BECH32_HRP_LEN g'

/-! ## Basic facts about the memory operations -/

theorem forLoop_zero {σ : Type} (body : Nat → σ → σ) (s : σ) : forLoop 0 body s = s := rfl

theorem forLoop_succ {σ : Type} (n : Nat) (body : Nat → σ → σ) (s : σ) :
    forLoop (n + 1) body s = body n (forLoop n body s) := by
  simp [forLoop, List.range_succ, List.foldl_append]

/-- A loop whose iteration `i` stores `f i` at cell `i` fills the first `n` cells. -/
theorem forLoop_store (n : Nat) (f : Nat → Nat) (p : Mem) (j : Nat) :
    forLoop n (fun i q => store q i (f i)) p j = if j < n then f j else p j := by
  induction n with
  | zero => simp [forLoop_zero]
  | succ n ih =>
    rw [forLoop_succ]
    simp only [store]
    by_cases h : j = n
    · subst h; simp
    · rw [if_neg h, ih]
      by_cases h1 : j < n
      · simp [h1, Nat.lt_succ_of_lt h1]
      · have : ¬ j < n + 1 := by omega
        simp [h1, this]

/-- A loop whose iteration `i` stores `f i` at cell `2 i` and `g i` at cell `2 i + 1`
fills the first `2 n` cells. -/
theorem forLoop_store_pair (n : Nat) (f g : Nat → Nat) (p : Mem) (j : Nat) :
    forLoop n (fun i q => store (store q (0 + 2 * i) (f i)) (0 + 2 * i + 1) (g i)) p j
      = if j < 2 * n then (if j % 2 = 0 then f (j / 2) else g (j / 2)) else p j := by
  induction n with
  | zero => simp [forLoop_zero]
  | succ n ih =>
    rw [forLoop_succ]
    simp only [store]
    by_cases h1 : j = 0 + 2 * n + 1
    · have e1 : j / 2 = n := by omega
      have e2 : j % 2 ≠ 0 := by omega
      have e3 : j < 2 * (n + 1) := by omega
      rw [if_pos h1, if_pos e3, if_neg e2, e1]
    · rw [if_neg h1]
      by_cases h2 : j = 0 + 2 * n
      · have e1 : j / 2 = n := by omega
        have e2 : j % 2 = 0 := by omega
        have e3 : j < 2 * (n + 1) := by omega
        rw [if_pos h2, if_pos e3, if_pos e2, e1]
      · rw [if_neg h2, ih]
        by_cases h3 : j < 2 * n
        · have e3 : j < 2 * (n + 1) := by omega
          rw [if_pos h3, if_pos e3]
        · have e3 : ¬ j < 2 * (n + 1) := by omega
          rw [if_neg h3, if_neg e3]

/-! ## The checksummed hexadecimal encoder -/

theorem nibble_lt (a : Mem) (i : Nat) : nibble a i < 16 := by
  unfold nibble; split <;> omega

theorem hi_nibble (x : Nat) : (x >>> 4) &&& 0x0f = x / 16 % 16 := by
  have h := Nat.and_pow_two_sub_one_eq_mod (x / 16) 4
  rw [Nat.shiftRight_eq_div_pow]
  simpa using h

theorem lo_nibble (x : Nat) : x &&& 0x0f = x % 16 := by
  have h := Nat.and_pow_two_sub_one_eq_mod x 4
  simpa using h

theorem code_nibble (a : Mem) (i : Nat) :
    (if i % 2 = 0 then (a (i / 2) >>> 4) &&& 0x0f else a (i / 2) &&& 0x0f) = nibble a i := by
  unfold nibble; rw [hi_nibble, lo_nibble]

theorem code_hash_nibble (h : Mem) (i : Nat) :
    (h (i / 2) >>> (4 * (1 - i % 2))) &&& 0x0f = nibble h i := by
  unfold nibble
  rcases Nat.mod_two_eq_zero_or_one i with e | e
  · rw [e, if_pos rfl]; exact hi_nibble _
  · rw [e, if_neg (by decide)]; simpa using lo_nibble _

theorem HEXDIGITS_lower (d : Nat) (h : d < 16) : HEXDIGITS.getD d 0 = lowerHexChar d := by
  interval_cases d <;> rfl

theorem HEXDIGITS_upper (d : Nat) (h1 : ¬ d < 10) (h : d < 16) :
    ((((HEXDIGITS.getD d 0 : Nat) : Int) - 97 + 65) % 2 ^ 8).toNat = upperHexChar d := by
  interval_cases d <;> first | omega | rfl


/-- The scratch region `locals_union.tmp` after the first loop of
`crypto_eth_address_bytes_to_string`. -/
theorem eth_tmp_loop (a t : Mem) (j : Nat) :
    forLoop 20 (fun i tmp =>
      let digit := a i
      let tmp := store tmp (0 + 2 * i) (HEXDIGITS.getD ((digit >>> 4) &&& 0x0f) 0)
      store tmp (0 + 2 * i + 1) (HEXDIGITS.getD (digit &&& 0x0f) 0)) t j
      = if j < 40 then lowerHexChar (nibble a j) else t j := by
  have h := forLoop_store_pair 20 (fun i => HEXDIGITS.getD ((a i >>> 4) &&& 0x0f) 0)
    (fun i => HEXDIGITS.getD (a i &&& 0x0f) 0) t j
  simp only [] at h ⊢
  rw [h]
  by_cases hj : j < 40
  · rw [if_pos (by omega), if_pos hj]
    have hn := nibble_lt a j
    rw [← HEXDIGITS_lower _ hn, ← code_nibble]
    split <;> rfl
  · rw [if_neg (by omega), if_neg hj]

theorem eth_tmp_bytes (a t : Mem) :
    readBytes (forLoop 20 (fun i tmp =>
      let digit := a i
      let tmp := store tmp (0 + 2 * i) (HEXDIGITS.getD ((digit >>> 4) &&& 0x0f) 0)
      store tmp (0 + 2 * i + 1) (HEXDIGITS.getD (digit &&& 0x0f) 0)) t) (0 + 40) = lowerHex a := by
  unfold readBytes lowerHex
  apply List.map_congr_left
  intro j hj
  rw [eth_tmp_loop, if_pos (by simpa using hj)]

theorem eth_result_loop (a h r : Mem) (j : Nat) :
    forLoop 40 (fun i res =>
      let digit := a (i / 2)
      let digit := if i % 2 = 0 then (digit >>> 4) &&& 0x0f else digit &&& 0x0f
      if digit < 10 then
        store res i (HEXDIGITS.getD digit 0)
      else
        let v := (h (i / 2) >>> (4 * (1 - i % 2))) &&& 0x0f
        if v ≥ 8 then
          store res i ((((HEXDIGITS.getD digit 0 : Nat) : Int) - 97 + 65) % 2 ^ 8).toNat
        else
          store res i (HEXDIGITS.getD digit 0)) r j
      = if j < 40 then eip55Char a h j else r j := by
  have hb : (fun i res =>
      let digit := a (i / 2)
      let digit := if i % 2 = 0 then (digit >>> 4) &&& 0x0f else digit &&& 0x0f
      if digit < 10 then
        store res i (HEXDIGITS.getD digit 0)
      else
        let v := (h (i / 2) >>> (4 * (1 - i % 2))) &&& 0x0f
        if v ≥ 8 then
          store res i ((((HEXDIGITS.getD digit 0 : Nat) : Int) - 97 + 65) % 2 ^ 8).toNat
        else
          store res i (HEXDIGITS.getD digit 0))
      = fun i (res : Mem) => store res i (eip55Char a h i) := by
    funext i res
    simp only []
    rw [code_nibble, code_hash_nibble]
    have hn := nibble_lt a i
    unfold eip55Char
    by_cases h1 : nibble a i < 10
    · rw [if_pos h1, if_pos h1, HEXDIGITS_lower _ hn]
    · rw [if_neg h1, if_neg h1]
      by_cases h2 : nibble h i ≥ 8
      · rw [if_pos h2, if_pos h2, HEXDIGITS_upper _ h1 hn]
      · rw [if_neg h2, if_neg h2, HEXDIGITS_lower _ hn]
  rw [hb, forLoop_store]

/-- Closed form of `crypto_eth_address_bytes_to_string`: the digest it consults is the
Keccak-256 digest of the lower-case text of the address. -/
theorem eth_string_value (P : Platform) (a r : Mem) :
    crypto_eth_address_bytes_to_string P a r
      = (42, writeBack (store (store r 0 48) 1 120) 2
          (fun j => if j < 40 then eip55Char a (P.keccak256 (lowerHex a)) j
            else store (store r 0 48) 1 120 (2 + j))) := by
  unfold crypto_eth_address_bytes_to_string
  have e1 := eth_tmp_bytes a (fun _ => 0)
  have e2 := fun h r => funext (eth_result_loop a h r)
  simp only [] at e1 e2 ⊢
  rw [e1, e2]
  refine congrArg (fun q => (42, writeBack (store (store r 0 48) 1 120) 2 q)) ?_
  funext j
  by_cases hj : j < 40
  · rw [if_pos hj, if_pos hj]
    unfold eip55Char nibble
    have : j / 2 < 32 := by omega
    simp only [MEMCPY, if_pos this]
  · rw [if_neg hj, if_neg hj]; rfl

theorem eth_string_char (P : Platform) (a r : Mem) (i : Nat) (hi : i < 40) :
    (crypto_eth_address_bytes_to_string P a r).2 (2 + i)
      = eip55Char a (P.keccak256 (lowerHex a)) i := by
  rw [eth_string_value]
  simp [writeBack, hi]

theorem eth_string_head (P : Platform) (a r : Mem) :
    (crypto_eth_address_bytes_to_string P a r).2 0 = 48 ∧
    (crypto_eth_address_bytes_to_string P a r).2 1 = 120 := by
  rw [eth_string_value]
  simp [writeBack, store]

theorem eth_string_frame (P : Platform) (a r : Mem) (j : Nat) (hj : 42 ≤ j) :
    (crypto_eth_address_bytes_to_string P a r).2 j = r j := by
  rw [eth_string_value]
  have h1 : ¬ j < 2 := by omega
  have h2 : ¬ j - 2 < 40 := by omega
  have h3 : 2 + (j - 2) = j := by omega
  have h4 : j ≠ 1 := by omega
  have h5 : j ≠ 0 := by omega
  simp [writeBack, store, h1, h2, h3, h4, h5]

/-- C3 (EIP-55 casing rule): for every address `a`, every Keccak-256 oracle and every
previous content of the result region, `crypto_eth_address_bytes_to_string` returns
42, writes `'0'` `'x'` at `result[0..1]`, and at `result[2 + i]`, for `i < 40`, the
lower-case hex character of nibble `i` of `a` when that nibble is a digit, and
otherwise the upper-case letter when nibble `i` of the digest of the 40-character
lower-case text of `a` is at least 8 and the lower-case letter when it is below 8. -/
theorem crypto_eth_address_bytes_to_string_eip55 (P : Platform) (a result : Mem) :
    (crypto_eth_address_bytes_to_string P a result).1 = 42 ∧
    (crypto_eth_address_bytes_to_string P a result).2 0 = 48 ∧
    (crypto_eth_address_bytes_to_string P a result).2 1 = 120 ∧
    ∀ i, i < 40 →
      (crypto_eth_address_bytes_to_string P a result).2 (2 + i) =
        if nibble a i < 10 then lowerHexChar (nibble a i)
        else if nibble (P.keccak256 (lowerHex a)) i ≥ 8 then upperHexChar (nibble a i)
        else lowerHexChar (nibble a i) := by
  refine ⟨by rw [eth_string_value], (eth_string_head P a result).1,
    (eth_string_head P a result).2, fun i hi => ?_⟩
  rw [eth_string_char P a result i hi]
  rfl

/-! ## Key generation and compression -/

theorem tryGenerateKeyPair_done (P : Platform) (path : List Nat) (stack l : KeyLocals)
    (h : generateKeyPair P path stack = Try.done l) :
    tryGenerateKeyPair P path stack = (zxerr_ok, { l with
      cx_privateKey := MEMZERO l.cx_privateKey P.sizeof_cx_ecfp_private_key_t
      privateKeyData := MEMZERO l.privateKeyData 32 }) := by
  simp only [tryGenerateKeyPair, h]

theorem tryGenerateKeyPair_raised (P : Platform) (path : List Nat) (stack l : KeyLocals)
    (e : Nat) (h : generateKeyPair P path stack = Try.raised e l) :
    tryGenerateKeyPair P path stack = (zxerr_ledger_api_error, { l with
      cx_privateKey := MEMZERO l.cx_privateKey P.sizeof_cx_ecfp_private_key_t
      privateKeyData := MEMZERO l.privateKeyData 32 }) := by
  simp only [tryGenerateKeyPair, h]

/-- The formatting code of lines 69-78 (and 298-307) leaves `prefix ‖ X` in the first
33 bytes and nothing else changed. -/
theorem format_pubkey (W buf : Mem) :
    MEMCPY
      (if store W 0 (if W 64 &&& 1 ≠ 0 then 0x03 else 0x02) 32 &&& 1 ≠ 0 then
        store (forLoop 32 (fun i pk => store pk i (W (64 - i))) buf) 31
          (forLoop 32 (fun i pk => store pk i (W (64 - i))) buf 31 ||| 0x80)
       else forLoop 32 (fun i pk => store pk i (W (64 - i))) buf)
      (store W 0 (if W 64 &&& 1 ≠ 0 then 0x03 else 0x02)) PK_LEN_SECP256K1
    = compressInto W buf := by
  funext j
  unfold compressInto MEMCPY PK_LEN_SECP256K1
  by_cases hj : j < 33
  · rw [if_pos hj, if_pos hj]
    unfold store
    by_cases h0 : j = 0
    · rw [if_pos h0, if_pos h0, Nat.and_one_is_mod]
      rcases Nat.mod_two_eq_zero_or_one (W 64) with e | e <;> simp [e]
    · rw [if_neg h0, if_neg h0]
  · rw [if_neg hj, if_neg hj]
    have h31 : j ≠ 31 := by omega
    have h32 : ¬ j < 32 := by omega
    have hF := forLoop_store 32 (fun i => W (64 - i)) buf j
    rw [if_neg h32] at hF
    by_cases hc : store W 0 (if W 64 &&& 1 ≠ 0 then 0x03 else 0x02) 32 &&& 1 ≠ 0
    · rw [if_pos hc]
      show (if j = 31 then _ else _) = _
      rw [if_neg h31]; exact hF
    · rw [if_neg hc]; exact hF

theorem crypto_extractPublicKey_done (P : Platform) (path : List Nat) (pubKey : Mem)
    (pubKeyLen : Nat) (stack l : KeyLocals) (hlen : 33 ≤ pubKeyLen)
    (h : generateKeyPair P path stack = Try.done l) :
    crypto_extractPublicKey P path pubKey pubKeyLen stack
      = .returned zxerr_ok ⟨compressInto l.cx_publicKey.W pubKey,
          ⟨{ l.cx_publicKey with
              W := store l.cx_publicKey.W 0 (if l.cx_publicKey.W 64 &&& 1 ≠ 0 then 0x03 else 0x02) },
            MEMZERO l.cx_privateKey P.sizeof_cx_ecfp_private_key_t,
            MEMZERO l.privateKeyData 32⟩⟩ := by
  unfold crypto_extractPublicKey
  rw [if_neg (by unfold PK_LEN_SECP256K1; omega), tryGenerateKeyPair_done P path stack l h]
  simp only [ne_eq, not_true_eq_false, if_false]
  have := format_pubkey l.cx_publicKey.W pubKey
  simp only [ne_eq] at this
  rw [this]

theorem crypto_extractPublicKey_raised (P : Platform) (path : List Nat) (pubKey : Mem)
    (pubKeyLen : Nat) (stack l : KeyLocals) (e : Nat) (hlen : 33 ≤ pubKeyLen)
    (h : generateKeyPair P path stack = Try.raised e l) :
    crypto_extractPublicKey P path pubKey pubKeyLen stack
      = .returned zxerr_ledger_api_error ⟨pubKey,
          ⟨l.cx_publicKey, MEMZERO l.cx_privateKey P.sizeof_cx_ecfp_private_key_t,
            MEMZERO l.privateKeyData 32⟩⟩ := by
  unfold crypto_extractPublicKey
  rw [if_neg (by unfold PK_LEN_SECP256K1; omega), tryGenerateKeyPair_raised P path stack l e h]
  simp

/-- C2 (public-key compression): when the key oracle completes and leaves the point
`W` in `cx_publicKey` and `pubKeyLen ≥ 33`, `crypto_extractPublicKey` returns
`zxerr_ok`; `pubKey[0]` is `0x02` when `W[64] & 1 = 0` and `0x03` otherwise,
`pubKey[1..32]` is `W[1..32]` (the coordinate X), so that `pubKey[0] - 2` is the
parity of Y, and no byte of `pubKey` at an index `≥ 33` is modified. -/
theorem crypto_extractPublicKey_compresses (P : Platform) (path : List Nat) (pubKey : Mem)
    (pubKeyLen : Nat) (stack l : KeyLocals) (hlen : 33 ≤ pubKeyLen)
    (hgen : generateKeyPair P path stack = Try.done l) :
    ∃ st, crypto_extractPublicKey P path pubKey pubKeyLen stack = Outcome.returned zxerr_ok st ∧
      st.pubKey 0 = (if l.cx_publicKey.W 64 &&& 1 = 0 then 0x02 else 0x03) ∧
      (∀ j, 1 ≤ j → j ≤ 32 → st.pubKey j = l.cx_publicKey.W j) ∧
      st.pubKey 0 - 2 = l.cx_publicKey.W 64 % 2 ∧
      (∀ j, 33 ≤ j → st.pubKey j = pubKey j) := by
  refine ⟨_, crypto_extractPublicKey_done P path pubKey pubKeyLen stack l hlen hgen, ?_, ?_, ?_, ?_⟩
  · simp [compressInto, Nat.and_one_is_mod]
  · intro j h1 h2
    have h3 : j < 33 := by omega
    have h4 : j ≠ 0 := by omega
    simp [compressInto, h3, h4]
  · rcases Nat.mod_two_eq_zero_or_one (l.cx_publicKey.W 64) with e | e <;>
      simp [compressInto, e]
  · intro j h1
    have h3 : ¬ j < 33 := by omega
    simp [compressInto, h3]

/-- Witness on the sample platform: the point has an odd Y, so the key starts
with `0x03`, and `pubKey[33]` keeps its zero. -/
theorem crypto_extractPublicKey_compresses_witness :
    ∃ st, crypto_extractPublicKey (samplePlatform 0) [44, 118, 0, 0, 0] (fun _ => 0) 33
        sampleStack = Outcome.returned zxerr_ok st ∧
      st.pubKey 0 = 0x03 ∧ st.pubKey 1 = 7 ∧ st.pubKey 32 = 69 ∧ st.pubKey 33 = 0 := by
  obtain ⟨st, h, h0, hX, _, hrest⟩ :=
    crypto_extractPublicKey_compresses (samplePlatform 0) [44, 118, 0, 0, 0] (fun _ => 0) 33
      sampleStack _ (by decide) rfl
  exact ⟨st, h, h0, hX 1 (by decide) (by decide), hX 32 (by decide) (by decide),
    hrest 33 (by decide)⟩

/-! ## The Ethereum-style address -/

theorem readBytes_congr (p q : Mem) (n : Nat) (h : ∀ i, i < n → p i = q i) :
    readBytes p n = readBytes q n := by
  unfold readBytes
  apply List.map_congr_left
  intro i hi
  exact h i (by simpa using hi)

theorem lowerHex_congr (a b : Mem) (h : ∀ i, i < 20 → a i = b i) : lowerHex a = lowerHex b := by
  unfold lowerHex
  apply List.map_congr_left
  intro i hi
  have hi : i < 40 := by simpa using hi
  unfold nibble
  rw [h (i / 2) (by omega)]

theorem eip55Char_congr (a b h : Mem) (hab : ∀ i, i < 20 → a i = b i) (j : Nat) (hj : j < 40) :
    eip55Char a h j = eip55Char b h j := by
  unfold eip55Char nibble
  rw [hab (j / 2) (by omega)]

/-- The 42 characters depend on the first 20 bytes of the address only, and not on
the previous content of the result region. -/
theorem eth_string_congr (P : Platform) (a b r r' : Mem) (hab : ∀ i, i < 20 → a i = b i)
    (j : Nat) (hj : j < 42) :
    (crypto_eth_address_bytes_to_string P a r).2 j
      = (crypto_eth_address_bytes_to_string P b r').2 j := by
  rw [eth_string_value, eth_string_value, lowerHex_congr a b hab]
  by_cases h0 : j = 0
  · subst h0; simp [writeBack, store]
  by_cases h1 : j = 1
  · subst h1; simp [writeBack, store]
  have h2 : ¬ j < 2 := by omega
  have h3 : j - 2 < 40 := by omega
  simp only [writeBack, if_neg h2, if_pos h3]
  exact eip55Char_congr a b _ hab _ h3

theorem eth_string_len (P : Platform) (a r : Mem) :
    (crypto_eth_address_bytes_to_string P a r).1 = 42 := by
  rw [eth_string_value]

theorem eip55Char_ge (a h : Mem) (i : Nat) : 48 ≤ eip55Char a h i := by
  unfold eip55Char lowerHexChar upperHexChar
  split_ifs <;> omega

theorem crypto_fillETHAddress_done (P : Platform) (hdPath : List Nat) (buffer : Mem)
    (buffer_len addrResponseLen : Nat) (stack l : KeyLocals) (hlen : 53 ≤ buffer_len)
    (h : generateKeyPair P hdPath stack = Try.done l) :
    crypto_fillETHAddress P hdPath buffer buffer_len addrResponseLen stack
      = .returned zxerr_ok
          ⟨writeBack (compressInto l.cx_publicKey.W buffer) 33
            (crypto_eth_address_bytes_to_string P
              (ptrAdd (MEMCPY (fun _ => 0)
                (P.keccak256 (readBytes (ptrAdd l.cx_publicKey.W 1) 64)) 32) 12)
              (ptrAdd (compressInto l.cx_publicKey.W buffer) 33)).2,
           75,
           ⟨{ l.cx_publicKey with
              W := store l.cx_publicKey.W 0 (if l.cx_publicKey.W 64 &&& 1 ≠ 0 then 0x03 else 0x02) },
            MEMZERO l.cx_privateKey P.sizeof_cx_ecfp_private_key_t,
            MEMZERO l.privateKeyData 32⟩⟩ := by
  unfold crypto_fillETHAddress
  rw [if_neg (by unfold PK_LEN_SECP256K1; omega), tryGenerateKeyPair_done P hdPath stack l h]
  simp only [ne_eq, not_true_eq_false, if_false]
  have hf := format_pubkey l.cx_publicKey.W buffer
  simp only [ne_eq] at hf
  rw [hf]
  have hW : readBytes (ptrAdd (store l.cx_publicKey.W 0
      (if ¬ l.cx_publicKey.W 64 &&& 1 = 0 then 0x03 else 0x02)) 1) 64
      = readBytes (ptrAdd l.cx_publicKey.W 1) 64 := by
    apply readBytes_congr
    intro i _
    simp [ptrAdd, store]
  rw [hW]
  rw [eth_string_len]
  rfl


theorem crypto_fillETHAddress_raised (P : Platform) (hdPath : List Nat) (buffer : Mem)
    (buffer_len addrResponseLen : Nat) (stack l : KeyLocals) (e : Nat) (hlen : 53 ≤ buffer_len)
    (h : generateKeyPair P hdPath stack = Try.raised e l) :
    crypto_fillETHAddress P hdPath buffer buffer_len addrResponseLen stack
      = .returned zxerr_ledger_api_error ⟨buffer, addrResponseLen,
          ⟨l.cx_publicKey, MEMZERO l.cx_privateKey P.sizeof_cx_ecfp_private_key_t,
            MEMZERO l.privateKeyData 32⟩⟩ := by
  unfold crypto_fillETHAddress
  rw [if_neg (by unfold PK_LEN_SECP256K1; omega), tryGenerateKeyPair_raised P hdPath stack l e h]
  simp

/-- C9 (Ethereum-style address pipeline): when the key oracle completes with the point
`W` and `buffer_len ≥ 75`, `crypto_fillETHAddress` returns `zxerr_ok`;
`buffer[0..32]` is the compressed key, `buffer[33..74]` holds the 42 characters that
`crypto_eth_address_bytes_to_string` produces for bytes 12..31 of
`Keccak256(W[1..64])`, with `W[1..64]` the coordinate bytes as the oracle left
them, and `*addrResponseLen` is `33 + 42`. -/
theorem crypto_fillETHAddress_pipeline (P : Platform) (hdPath : List Nat) (buffer : Mem)
    (buffer_len addrResponseLen : Nat) (stack l : KeyLocals) (hlen : 75 ≤ buffer_len)
    (hgen : generateKeyPair P hdPath stack = Try.done l) :
    ∃ st, crypto_fillETHAddress P hdPath buffer buffer_len addrResponseLen stack
        = Outcome.returned zxerr_ok st ∧
      st.buffer 0 = (if l.cx_publicKey.W 64 &&& 1 = 0 then 0x02 else 0x03) ∧
      (∀ j, 1 ≤ j → j ≤ 32 → st.buffer j = l.cx_publicKey.W j) ∧
      (∀ (r : Mem) (i : Nat), i < 42 → st.buffer (33 + i) =
        (crypto_eth_address_bytes_to_string P
          (ptrAdd (P.keccak256 (readBytes (ptrAdd l.cx_publicKey.W 1) 64)) 12) r).2 i) ∧
      st.addrResponseLen = 33 + 42 := by
  refine ⟨_, crypto_fillETHAddress_done P hdPath buffer buffer_len addrResponseLen stack l
    (by omega) hgen, ?_, ?_, ?_, rfl⟩
  · simp [writeBack, compressInto, Nat.and_one_is_mod]
  · intro j h1 h2
    have h3 : j < 33 := by omega
    have h4 : j ≠ 0 := by omega
    simp [writeBack, compressInto, h3, h4]
  · intro r i hi
    have h3 : ¬ 33 + i < 33 := by omega
    simp only [writeBack, if_neg h3, Nat.add_sub_cancel_left]
    apply eth_string_congr P _ _ _ _ _ i hi
    intro k hk
    have : 12 + k < 32 := by omega
    simp [ptrAdd, MEMCPY, this]

/-- Witness on the sample platform with `buffer_len = 75`. -/
theorem crypto_fillETHAddress_pipeline_witness :
    ∃ st, crypto_fillETHAddress (samplePlatform 0) [44, 118, 0, 0, 0] (fun _ => 0) 75 0
        sampleStack = Outcome.returned zxerr_ok st ∧
      st.buffer 0 = 0x03 ∧ st.buffer 32 = 69 ∧ st.buffer 33 = 48 ∧ st.buffer 34 = 120 ∧
      st.addrResponseLen = 75 := by
  obtain ⟨st, h, h0, hX, hS, hL⟩ :=
    crypto_fillETHAddress_pipeline (samplePlatform 0) [44, 118, 0, 0, 0] (fun _ => 0) 75 0
      sampleStack _ (by decide) rfl
  refine ⟨st, h, h0, hX 32 (by decide) (by decide), ?_, ?_, hL⟩
  · rw [hS (fun _ => 0) 0 (by decide)]; exact (eth_string_head _ _ _).1
  · rw [hS (fun _ => 0) 1 (by decide)]; exact (eth_string_head _ _ _).2

/-- C1 (behaviour of the code where the claim fails): for every `buffer_len` from 53
to 74 and every key oracle that completes, `crypto_fillETHAddress` returns
`zxerr_ok` and reports the response length 75, which exceeds `buffer_len`; every
cell `buffer[35..74]`, those at `buffer_len` and beyond included, then holds an
address character (a byte `≥ 48`). -/
theorem crypto_fillETHAddress_writes_past_buffer_len (P : Platform) (hdPath : List Nat)
    (buffer : Mem) (buffer_len addrResponseLen : Nat) (stack l : KeyLocals)
    (hlo : 53 ≤ buffer_len) (hhi : buffer_len < 75)
    (hgen : generateKeyPair P hdPath stack = Try.done l) :
    ∃ st, crypto_fillETHAddress P hdPath buffer buffer_len addrResponseLen stack
        = Outcome.returned zxerr_ok st ∧
      st.addrResponseLen = 75 ∧ buffer_len < st.addrResponseLen ∧
      (∀ i, 35 ≤ i → i < 75 → 48 ≤ st.buffer i) := by
  refine ⟨_, crypto_fillETHAddress_done P hdPath buffer buffer_len addrResponseLen stack l
    hlo hgen, rfl, hhi, ?_⟩
  intro i h1 h2
  have h3 : ¬ i < 33 := by omega
  have h4 : i - 33 = 2 + (i - 35) := by omega
  simp only [writeBack, if_neg h3]
  rw [h4, eth_string_char _ _ _ _ (by omega)]
  exact eip55Char_ge _ _ _

/-- Witness on the sample platform with `buffer_len = 53` and a zeroed buffer:
the reported length is 75 and `buffer[74]`, zero before the call, holds a character. -/
theorem crypto_fillETHAddress_writes_past_buffer_len_witness :
    ∃ st, crypto_fillETHAddress (samplePlatform 0) [44, 118, 0, 0, 0] (fun _ => 0) 53 0
        sampleStack = Outcome.returned zxerr_ok st ∧
      st.addrResponseLen = 75 ∧ ¬ st.addrResponseLen ≤ 53 ∧
      (fun _ => 0 : Mem) 74 = 0 ∧ 48 ≤ st.buffer 74 := by
  obtain ⟨st, h, hL, hlt, hw⟩ :=
    crypto_fillETHAddress_writes_past_buffer_len (samplePlatform 0) [44, 118, 0, 0, 0]
      (fun _ => 0) 53 0 sampleStack _ (by decide) (by decide) rfl
  exact ⟨st, h, hL, by omega, rfl, hw 74 (by decide) (by decide)⟩

/-! ## Precondition checks -/

/-- C4 (precondition violations are reported before any secret is touched): with
`buffer_len < 33 + 50`, `crypto_fillAddress` returns `zxerr_buffer_too_small`; with
`buffer_len < 33 + 20`, so does `crypto_fillETHAddress`; with `pubKeyLen < 33`,
`crypto_extractPublicKey` returns `zxerr_invalid_crypto_settings`.  In each case the
result is the same for every platform, a faulting key oracle included, and the
output buffer, `*addrResponseLen` and the automatic key variables are as before
the call. -/
theorem precondition_violation_before_oracle (P : Platform) (hdPath path : List Nat)
    (bech32_hrp buffer : Mem) (buffer_len addrResponseLen pubKeyLen : Nat)
    (stack : KeyLocals) :
    (buffer_len < 33 + 50 →
      crypto_fillAddress P hdPath bech32_hrp buffer buffer_len addrResponseLen stack
        = Outcome.returned zxerr_buffer_too_small ⟨buffer, addrResponseLen⟩) ∧
    (buffer_len < 33 + 20 →
      crypto_fillETHAddress P hdPath buffer buffer_len addrResponseLen stack
        = Outcome.returned zxerr_buffer_too_small ⟨buffer, addrResponseLen, stack⟩) ∧
    (pubKeyLen < 33 →
      crypto_extractPublicKey P path buffer pubKeyLen stack
        = Outcome.returned zxerr_invalid_crypto_settings ⟨buffer, stack⟩) := by
  refine ⟨fun h => ?_, fun h => ?_, fun h => ?_⟩
  · unfold crypto_fillAddress
    rw [if_pos (by unfold PK_LEN_SECP256K1; omega)]
  · unfold crypto_fillETHAddress
    rw [if_pos (by unfold PK_LEN_SECP256K1; omega)]
  · unfold crypto_extractPublicKey
    rw [if_pos (by unfold PK_LEN_SECP256K1; omega)]

/-- Witness at the largest rejected lengths 82, 52 and 32, on platforms whose
key oracle raises and on one whose oracle completes. -/
theorem precondition_violation_before_oracle_witness :
    crypto_fillAddress (samplePlatform 1) [44, 118, 0, 0, 0] (fun _ => 0) (fun i => i) 82 5
        sampleStack = Outcome.returned zxerr_buffer_too_small ⟨fun i => i, 5⟩ ∧
    crypto_fillETHAddress (samplePlatform 0) [44, 118, 0, 0, 0] (fun i => i) 52 5 sampleStack
        = Outcome.returned zxerr_buffer_too_small ⟨fun i => i, 5, sampleStack⟩ ∧
    crypto_extractPublicKey (samplePlatform 2) [44, 118, 0, 0, 0] (fun i => i) 32 sampleStack
        = Outcome.returned zxerr_invalid_crypto_settings ⟨fun i => i, sampleStack⟩ :=
  ⟨(precondition_violation_before_oracle (samplePlatform 1) [44, 118, 0, 0, 0] []
      (fun _ => 0) (fun i => i) 82 5 0 sampleStack).1 (by decide),
   (precondition_violation_before_oracle (samplePlatform 0) [44, 118, 0, 0, 0] []
      (fun _ => 0) (fun i => i) 52 5 0 sampleStack).2.1 (by decide),
   (precondition_violation_before_oracle (samplePlatform 2) [] [44, 118, 0, 0, 0]
      (fun _ => 0) (fun i => i) 0 0 32 sampleStack).2.2 (by decide)⟩

/-! ## The HRP registry -/

theorem snprintf_s_apply (dst : Mem) (M : Nat) (p : List Nat) (i : Nat) :
    snprintf_s dst (M + 1) p i
      = if i = min p.length M then 0 else if i < min p.length M then p.getD i 0 else dst i := by
  simp only [snprintf_s, Nat.add_one_ne_zero, if_false, Nat.add_sub_cancel, store, MEMCPY]

theorem crypto_set_hrp_of_lt (M : Nat) (p : List Nat) (g : HrpState)
    (h : p.length % 2 ^ 8 < M) :
    crypto_set_hrp M p g = ⟨p.length % 2 ^ 8, snprintf_s g.bech32_hrp (M + 1) p⟩ := by
  simp only [crypto_set_hrp, if_pos h]

theorem crypto_set_hrp_of_not_lt (M : Nat) (p : List Nat) (g : HrpState)
    (h : ¬ p.length % 2 ^ 8 < M) :
    crypto_set_hrp M p g = ⟨p.length % 2 ^ 8, g.bech32_hrp⟩ := by
  simp only [crypto_set_hrp, if_neg h]

theorem string256_length : string256.length = 256 :=
  List.length_replicate _ _

theorem string256_getD (i : Nat) (hi : i < 256) : string256.getD i 0 = 97 := by
  unfold string256
  rw [List.getD_eq_getElem?_getD, List.getElem?_replicate, if_pos hi]
  rfl

/-- C5 (the code at the failing input): with `MAX_BECH32_HRP_LEN = 83` and the HRP
`"fx"` configured, `crypto_set_hrp` of a string of 256 letters `a`, whose length is
at least `MAX_BECH32_HRP_LEN`, stores the length `256 mod 2^8 = 0` in
`bech32_hrp_len`, passes the guard, and overwrites `bech32_hrp` with the first 83
letters of the string followed by a NUL: a truncation of `p` replaces the
configured HRP. -/
theorem crypto_set_hrp_stores_truncation :
    83 ≤ string256.length ∧
    sampleHrpState.bech32_hrp 0 = 102 ∧
    (∀ i, i < 83 → (crypto_set_hrp 83 string256 sampleHrpState).bech32_hrp i = 97) ∧
    (crypto_set_hrp 83 string256 sampleHrpState).bech32_hrp 83 = 0 ∧
    (crypto_set_hrp 83 string256 sampleHrpState).bech32_hrp_len = 0 := by
  have hlen := string256_length
  have hwrap : string256.length % 2 ^ 8 < 83 := by rw [hlen]; norm_num
  have hst := crypto_set_hrp_of_lt 83 string256 sampleHrpState hwrap
  have hhrp := congrArg HrpState.bech32_hrp hst
  have hl := congrArg HrpState.bech32_hrp_len hst
  simp only [] at hhrp hl
  rw [hhrp, hl]
  refine ⟨by rw [hlen]; norm_num, rfl, fun i hi => ?_, ?_, by rw [hlen]; norm_num⟩
  · rw [snprintf_s_apply, hlen, if_neg (by omega), if_pos (by omega),
      string256_getD i (by omega)]
  · rw [snprintf_s_apply, hlen, if_pos (by omega)]

theorem extractHRP_short (M : Nat) (G : Mem) (rx offset : Nat) (g : HrpState)
    (h : rx < (offset + 1) % 2 ^ 32) :
    extractHRP M G rx offset g = .thrown APDU_CODE_DATA_INVALID g := by
  simp only [extractHRP, if_pos h]

theorem extractHRP_bad_length (M : Nat) (G : Mem) (rx offset : Nat) (g : HrpState)
    (h : ¬ rx < (offset + 1) % 2 ^ 32) (hl : G offset = 0 ∨ G offset > M) :
    extractHRP M G rx offset g
      = .thrown APDU_CODE_DATA_INVALID ⟨G offset, MEMZERO g.bech32_hrp M⟩ := by
  simp only [extractHRP, if_neg h, if_pos hl]

theorem extractHRP_good (M : Nat) (G : Mem) (rx offset : Nat) (g : HrpState)
    (h : ¬ rx < (offset + 1) % 2 ^ 32) (hl : ¬ (G offset = 0 ∨ G offset > M)) :
    extractHRP M G rx offset g
      = .returned (G offset) ⟨G offset,
          store (MEMCPY (MEMZERO g.bech32_hrp M) (ptrAdd (ptrAdd G offset) 1) (G offset))
            (G offset) 0⟩ := by
  simp only [extractHRP, if_neg h, if_neg hl]

/-- Every way `extractHRP` can return normally. -/
theorem extractHRP_returned (M : Nat) (G : Mem) (rx offset : Nat) (g g' : HrpState) (n : Nat)
    (h : extractHRP M G rx offset g = .returned n g') :
    ¬ rx < (offset + 1) % 2 ^ 32 ∧ G offset ≠ 0 ∧ G offset ≤ M ∧ n = G offset ∧
    g' = ⟨G offset,
          store (MEMCPY (MEMZERO g.bech32_hrp M) (ptrAdd (ptrAdd G offset) 1) (G offset))
            (G offset) 0⟩ := by
  by_cases h1 : rx < (offset + 1) % 2 ^ 32
  · rw [extractHRP_short M G rx offset g h1] at h; cases h
  · by_cases h2 : G offset = 0 ∨ G offset > M
    · rw [extractHRP_bad_length M G rx offset g h1 h2] at h; cases h
    · rw [extractHRP_good M G rx offset g h1 h2] at h
      cases h
      exact ⟨h1, fun e => h2 (Or.inl e), by omega, rfl, rfl⟩

/-- Every way `extractHRP` can abort. -/
theorem extractHRP_thrown (M : Nat) (G : Mem) (rx offset : Nat) (g g' : HrpState) (code : Nat)
    (h : extractHRP M G rx offset g = .thrown code g') :
    code = APDU_CODE_DATA_INVALID ∧
    ((rx < (offset + 1) % 2 ^ 32 ∧ g' = g) ∨
     (¬ rx < (offset + 1) % 2 ^ 32 ∧ (G offset = 0 ∨ G offset > M) ∧
        g' = ⟨G offset, MEMZERO g.bech32_hrp M⟩)) := by
  by_cases h1 : rx < (offset + 1) % 2 ^ 32
  · rw [extractHRP_short M G rx offset g h1] at h; cases h
    exact ⟨rfl, Or.inl ⟨h1, rfl⟩⟩
  · by_cases h2 : G offset = 0 ∨ G offset > M
    · rw [extractHRP_bad_length M G rx offset g h1 h2] at h; cases h
      exact ⟨rfl, Or.inr ⟨h1, h2, rfl⟩⟩
    · rw [extractHRP_good M G rx offset g h1 h2] at h
      cases h

/-- The last cell of `bech32_hrp` is zero in every reachable state. -/
theorem reachable_last_zero (M : Nat) (g : HrpState) (h : Reachable M g) :
    g.bech32_hrp M = 0 := by
  induction h with
  | init => rfl
  | set_hrp p hr ih =>
    rename_i g0
    by_cases hlt : p.length % 2 ^ 8 < M
    · rw [crypto_set_hrp_of_lt M p g0 hlt]
      show snprintf_s _ (M + 1) p M = 0
      rw [snprintf_s_apply]
      by_cases hm : M = min p.length M
      · rw [if_pos hm]
      · rw [if_neg hm, if_neg (by omega)]; exact ih
    · rw [crypto_set_hrp_of_not_lt M p g0 hlt]; exact ih
  | extract_returned G rx offset hr hx ih =>
    obtain ⟨_, _, hle, _, hg⟩ := extractHRP_returned M G rx offset _ _ _ hx
    rw [hg]
    simp only [store, MEMCPY, MEMZERO]
    by_cases hm : M = G offset
    · rw [if_pos hm]
    · rw [if_neg hm, if_neg (by omega), if_neg (by omega)]; exact ih
  | extract_thrown G rx offset hr hx ih =>
    obtain ⟨_, h1 | h2⟩ := extractHRP_thrown M G rx offset _ _ _ hx
    · rw [h1.2]; exact ih
    · rw [h2.2.2]
      simp only [MEMZERO, if_neg (Nat.lt_irrefl M)]; exact ih

/-- C6 (`extractHRP` fails exactly on malformed framing): for `offset < 2^32 - 1`,
`extractHRP(rx, offset)` aborts with `APDU_CODE_DATA_INVALID` if and only if
`rx < offset + 1`, or the length byte `G_io_apdu_buffer[offset]` is 0, or it exceeds
`MAX_BECH32_HRP_LEN`; in every other case it returns the length byte. -/
theorem extractHRP_fails_iff (M : Nat) (G : Mem) (rx offset : Nat) (g : HrpState)
    (hoff : offset < 2 ^ 32 - 1) :
    ((∃ st, extractHRP M G rx offset g = Outcome.thrown APDU_CODE_DATA_INVALID st) ↔
      (rx < offset + 1 ∨ G offset = 0 ∨ G offset > M)) ∧
    (¬ (rx < offset + 1 ∨ G offset = 0 ∨ G offset > M) →
      ∃ st, extractHRP M G rx offset g = Outcome.returned (G offset) st) := by
  have hmod : (offset + 1) % 2 ^ 32 = offset + 1 := Nat.mod_eq_of_lt (by omega)
  by_cases h1 : rx < offset + 1
  · refine ⟨⟨fun _ => Or.inl h1, fun _ => ⟨_, extractHRP_short M G rx offset g (by omega)⟩⟩,
      fun hn => absurd (Or.inl h1) hn⟩
  · by_cases h2 : G offset = 0 ∨ G offset > M
    · refine ⟨⟨fun _ => Or.inr h2,
        fun _ => ⟨_, extractHRP_bad_length M G rx offset g (by omega) h2⟩⟩,
        fun hn => absurd (Or.inr h2) hn⟩
    · have hg := extractHRP_good M G rx offset g (by omega) h2
      refine ⟨⟨fun ⟨st, hst⟩ => ?_, fun hc => ?_⟩, fun _ => ⟨_, hg⟩⟩
      · rw [hg] at hst; cases hst
      · rcases hc with hc | hc
        · exact absurd hc h1
        · exact absurd hc h2

/-- Witness: a declared length equal to `MAX_BECH32_HRP_LEN = 83` is accepted. -/
theorem extractHRP_fails_iff_witness :
    ((∃ st, extractHRP 83 (fun i => if i = 5 then 83 else 97) 100 5 sampleHrpState
        = Outcome.thrown APDU_CODE_DATA_INVALID st) ↔
      (100 < 5 + 1 ∨ (83 : Nat) = 0 ∨ 83 > 83)) ∧
    ∃ st, extractHRP 83 (fun i => if i = 5 then 83 else 97) 100 5 sampleHrpState
        = Outcome.returned 83 st :=
  ⟨(extractHRP_fails_iff 83 (fun i => if i = 5 then 83 else 97) 100 5 sampleHrpState
      (by decide)).1,
   (extractHRP_fails_iff 83 (fun i => if i = 5 then 83 else 97) 100 5 sampleHrpState
      (by decide)).2 (by decide)⟩

/-- C7 (`extractHRP` success postcondition): in every reachable state of the HRP
globals, when `extractHRP(rx, offset)` returns `n`, afterwards
`bech32_hrp[i] = G_io_apdu_buffer[offset + 1 + i]` for `i < n`, `bech32_hrp[i] = 0`
for `n ≤ i ≤ MAX_BECH32_HRP_LEN`, and `bech32_hrp_len = n`. -/
theorem extractHRP_stores_hrp (M : Nat) (G : Mem) (rx offset : Nat) (g g' : HrpState) (n : Nat)
    (hreach : Reachable M g)
    (hret : extractHRP M G rx offset g = Outcome.returned n g') :
    (∀ i, i < n → g'.bech32_hrp i = G (offset + 1 + i)) ∧
    (∀ i, n ≤ i → i ≤ M → g'.bech32_hrp i = 0) ∧
    g'.bech32_hrp_len = n := by
  obtain ⟨_, _, hle, hn, hg⟩ := extractHRP_returned M G rx offset g g' n hret
  have hlast := reachable_last_zero M g hreach
  subst hg
  rw [← hn] at hle ⊢
  refine ⟨fun i hi => ?_, fun i h1 h2 => ?_, rfl⟩
  · simp only [store, MEMCPY, MEMZERO, ptrAdd, if_neg (Nat.ne_of_lt hi), if_pos hi]
    rw [Nat.add_assoc]
  · simp only [store, MEMCPY, MEMZERO]
    by_cases e : i = n
    · rw [if_pos e]
    · rw [if_neg e, if_neg (by omega)]
      by_cases hM : i < M
      · rw [if_pos hM]
      · rw [if_neg hM]
        have : i = M := by omega
        rw [this]; exact hlast

/-- Witness: after `crypto_set_hrp` stored a three-letter HRP, a request with the
declared length 2 is extracted. -/
theorem extractHRP_stores_hrp_witness :
    ∃ g', extractHRP 83 (fun i => if i = 5 then 2 else 97 + i) 100 5
        (crypto_set_hrp 83 [102, 120, 49] initialHrpState) = Outcome.returned 2 g' ∧
      g'.bech32_hrp 0 = 103 ∧ g'.bech32_hrp 1 = 104 ∧ g'.bech32_hrp 2 = 0 ∧
      g'.bech32_hrp 83 = 0 ∧ g'.bech32_hrp_len = 2 := by
  have h := extractHRP_stores_hrp 83 (fun i => if i = 5 then 2 else 97 + i) 100 5
    (crypto_set_hrp 83 [102, 120, 49] initialHrpState) _ 2
    (Reachable.set_hrp [102, 120, 49] Reachable.init) rfl
  exact ⟨_, rfl, h.1 0 (by decide), h.1 1 (by decide), h.2.1 2 (by decide) (by decide),
    h.2.1 83 (by decide) (by decide), h.2.2⟩

/-! ## Faults of the secure element -/

/-- When a call in the `TRY` block of `crypto_sign` raises, `signatureLength` still has
the value it had on entry. -/
theorem signDigest_raised_length (P : Platform) (hdPath : List Nat) (digest : Mem)
    (maxlen : Nat) (f0 f : SignFrame) (e : Nat)
    (h : signDigest P hdPath digest maxlen f0 = Try.raised e f) :
    f.signatureLength = f0.signatureLength := by
  unfold signDigest Try.andThen at h
  split at h
  · beta_reduce at h
    split at h
    · split at h
      · cases h
      · cases h; rfl
    · cases h; rfl
  · cases h; rfl

theorem crypto_sign_raised (P : Platform) (hdPath : List Nat) (signature : Mem)
    (signatureMaxlen : Nat) (k d : Mem) (e : Nat) (f : SignFrame)
    (h : signDigest P hdPath
        (keccak_hash_message P P.tx_get_buffer (P.tx_get_buffer_length % 2 ^ 16)
          (MEMZERO (fun _ => 0) CX_SHA256_SIZE))
        signatureMaxlen ⟨signature, k, d, 0, 0⟩ = Try.raised e f) :
    crypto_sign P hdPath signature signatureMaxlen k d
      = .returned zxerr_ledger_api_error ⟨f.signature, 0,
          ⟨f.signature, MEMZERO f.cx_privateKey P.sizeof_cx_ecfp_private_key_t,
            MEMZERO f.privateKeyData 32, f.info, 0⟩⟩ := by
  have hl := signDigest_raised_length P hdPath _ _ _ _ _ h
  simp only [] at hl
  unfold crypto_sign
  simp only [h, hl]
  rfl

theorem crypto_fillAddress_raised (P : Platform) (hdPath : List Nat) (bech32_hrp buffer : Mem)
    (buffer_len addrResponseLen : Nat) (stack l : KeyLocals) (e : Nat) (hlen : 83 ≤ buffer_len)
    (h : generateKeyPair P hdPath stack = Try.raised e l) :
    crypto_fillAddress P hdPath bech32_hrp buffer buffer_len addrResponseLen stack
      = .returned zxerr_ledger_api_error ⟨buffer, addrResponseLen⟩ := by
  unfold crypto_fillAddress
  rw [if_neg (by unfold PK_LEN_SECP256K1; omega),
    crypto_extractPublicKey_raised P hdPath buffer buffer_len stack l e (by omega) h]
  simp

/-- C8 (oracle faults are mapped uniformly): when a secure-element call of the `TRY`
block raises, `crypto_extractPublicKey`, `crypto_fillAddress` and
`crypto_fillETHAddress` return `zxerr_ledger_api_error` normally, with the output
buffer and `*addrResponseLen` as before the call, and `crypto_sign` returns
`zxerr_ledger_api_error` normally with `*sigSize = 0`. -/
theorem oracle_faults_mapped (P : Platform) (hdPath path : List Nat)
    (bech32_hrp buffer signature : Mem)
    (buffer_len addrResponseLen pubKeyLen signatureMaxlen : Nat)
    (stack : KeyLocals) (stack_cx_privateKey stack_privateKeyData : Mem) :
    (∀ e l, 33 ≤ pubKeyLen → generateKeyPair P path stack = Try.raised e l →
      ∃ loc, crypto_extractPublicKey P path buffer pubKeyLen stack
        = Outcome.returned zxerr_ledger_api_error ⟨buffer, loc⟩) ∧
    (∀ e l, 33 + 50 ≤ buffer_len → generateKeyPair P hdPath stack = Try.raised e l →
      crypto_fillAddress P hdPath bech32_hrp buffer buffer_len addrResponseLen stack
        = Outcome.returned zxerr_ledger_api_error ⟨buffer, addrResponseLen⟩) ∧
    (∀ e l, 33 + 20 ≤ buffer_len → generateKeyPair P hdPath stack = Try.raised e l →
      ∃ loc, crypto_fillETHAddress P hdPath buffer buffer_len addrResponseLen stack
        = Outcome.returned zxerr_ledger_api_error ⟨buffer, addrResponseLen, loc⟩) ∧
    (∀ e f,
      signDigest P hdPath
        (keccak_hash_message P P.tx_get_buffer (P.tx_get_buffer_length % 2 ^ 16)
          (MEMZERO (fun _ => 0) CX_SHA256_SIZE))
        signatureMaxlen ⟨signature, stack_cx_privateKey, stack_privateKeyData, 0, 0⟩
          = Try.raised e f →
      ∃ st, crypto_sign P hdPath signature signatureMaxlen stack_cx_privateKey
          stack_privateKeyData = Outcome.returned zxerr_ledger_api_error st ∧
        st.sigSize = 0) := by
  refine ⟨fun e l hlen h => ?_, fun e l hlen h => ?_, fun e l hlen h => ?_, fun e f h => ?_⟩
  · exact ⟨_, crypto_extractPublicKey_raised P path buffer pubKeyLen stack l e hlen h⟩
  · exact crypto_fillAddress_raised P hdPath bech32_hrp buffer buffer_len addrResponseLen
      stack l e (by omega) h
  · exact ⟨_, crypto_fillETHAddress_raised P hdPath buffer buffer_len addrResponseLen stack
      l e (by omega) h⟩
  · exact ⟨_, crypto_sign_raised P hdPath signature signatureMaxlen stack_cx_privateKey
      stack_privateKeyData e f h, rfl⟩

/-- Witness on sample platforms whose first, second and fourth key call and
whose signing call raise. -/
theorem oracle_faults_mapped_witness :
    (∃ loc, crypto_extractPublicKey (samplePlatform 1) [44, 118, 0, 0, 0] (fun i => i) 33
        sampleStack = Outcome.returned zxerr_ledger_api_error ⟨fun i => i, loc⟩) ∧
    crypto_fillAddress (samplePlatform 2) [44, 118, 0, 0, 0] (fun _ => 0) (fun i => i) 83 5
        sampleStack = Outcome.returned zxerr_ledger_api_error ⟨fun i => i, 5⟩ ∧
    (∃ loc, crypto_fillETHAddress (samplePlatform 4) [44, 118, 0, 0, 0] (fun i => i) 53 5
        sampleStack = Outcome.returned zxerr_ledger_api_error ⟨fun i => i, 5, loc⟩) ∧
    (∃ st, crypto_sign (samplePlatform 4) [44, 118, 0, 0, 0] (fun i => i) 100
        (fun _ => 1) (fun _ => 2) = Outcome.returned zxerr_ledger_api_error st ∧
      st.sigSize = 0) :=
  ⟨(oracle_faults_mapped (samplePlatform 1) [] [44, 118, 0, 0, 0] (fun _ => 0) (fun i => i)
      (fun _ => 0) 0 0 33 0 sampleStack (fun _ => 0) (fun _ => 0)).1 _ _ (by decide) rfl,
   (oracle_faults_mapped (samplePlatform 2) [44, 118, 0, 0, 0] [] (fun _ => 0) (fun i => i)
      (fun _ => 0) 83 5 0 0 sampleStack (fun _ => 0) (fun _ => 0)).2.1 _ _ (by decide) rfl,
   (oracle_faults_mapped (samplePlatform 4) [44, 118, 0, 0, 0] [] (fun _ => 0) (fun i => i)
      (fun _ => 0) 53 5 0 0 sampleStack (fun _ => 0) (fun _ => 0)).2.2.1 _ _ (by decide) rfl,
   (oracle_faults_mapped (samplePlatform 4) [44, 118, 0, 0, 0] [] (fun _ => 0) (fun _ => 0)
      (fun i => i) 0 0 0 100 sampleStack (fun _ => 1) (fun _ => 2)).2.2.2 _ _ rfl⟩

/-! ## The native address -/

theorem readBytes_MEMCPY (dst src : Mem) (n : Nat) :
    readBytes (MEMCPY dst src n) n = readBytes src n := by
  apply readBytes_congr
  intro i hi
  simp only [MEMCPY, if_pos hi]

/-- The `TRY` block of `crypto_sign` consults the digest region only through its first
32 bytes. -/
theorem signDigest_congr (P : Platform) (hdPath : List Nat) (d1 d2 : Mem) (maxlen : Nat)
    (f : SignFrame) (h : readBytes d1 CX_SHA256_SIZE = readBytes d2 CX_SHA256_SIZE) :
    signDigest P hdPath d1 maxlen f = signDigest P hdPath d2 maxlen f := by
  unfold signDigest
  rw [h]

/-- The first 32 bytes of the digest region that `crypto_sign` hands to the `TRY`
block. -/
theorem crypto_sign_digest (P : Platform) (hlen : P.tx_get_buffer_length < 2 ^ 16) :
    readBytes (keccak_hash_message P P.tx_get_buffer (P.tx_get_buffer_length % 2 ^ 16)
        (MEMZERO (fun _ => 0) CX_SHA256_SIZE)) CX_SHA256_SIZE
      = readBytes (P.keccak256 (readBytes P.tx_get_buffer P.tx_get_buffer_length)) 32 := by
  unfold keccak_hash_message
  rw [readBytes_MEMCPY, Nat.mod_eq_of_lt hlen]
  rfl

theorem signDigest_done (P : Platform) (hdPath : List Nat) (digest : Mem) (maxlen : Nat)
    (f : SignFrame) (d k : Mem) (r : Mem × Nat × Int)
    (hderive : P.os_perso_derive_node_bip32 P.CX_CURVE_SECP256K1 hdPath HDPATH_LEN_DEFAULT
      f.privateKeyData = Try.done d)
    (hinit : P.cx_ecfp_init_private_key P.CX_CURVE_SECP256K1 d 32 f.cx_privateKey
      = Try.done k)
    (hsign : P.cx_ecdsa_sign k (P.CX_RND_RFC6979 ||| P.CX_LAST) P.CX_SHA256
      (readBytes digest CX_SHA256_SIZE) CX_SHA256_SIZE f.signature maxlen f.info
        = Try.done r) :
    signDigest P hdPath digest maxlen f = Try.done ⟨r.1, k, d, r.2.1, r.2.2⟩ := by
  unfold signDigest Try.andThen
  simp only [hderive, hinit, hsign]

theorem crypto_sign_done (P : Platform) (hdPath : List Nat) (signature : Mem)
    (signatureMaxlen : Nat) (k d : Mem) (f : SignFrame)
    (h : signDigest P hdPath
        (keccak_hash_message P P.tx_get_buffer (P.tx_get_buffer_length % 2 ^ 16)
          (MEMZERO (fun _ => 0) CX_SHA256_SIZE))
        signatureMaxlen ⟨signature, k, d, 0, 0⟩ = Try.done f) :
    crypto_sign P hdPath signature signatureMaxlen k d
      = .returned zxerr_ok ⟨f.signature, (f.signatureLength % 2 ^ 16).toNat,
          ⟨f.signature, MEMZERO f.cx_privateKey P.sizeof_cx_ecfp_private_key_t,
            MEMZERO f.privateKeyData 32, f.info, f.signatureLength⟩⟩ := by
  unfold crypto_sign
  simp only [h]

theorem spikeBuffer_sum (n : Nat) : (readBytes spikeBuffer (n + 2)).sum = 1 := by
  induction n with
  | zero => rfl
  | succ n ih =>
    unfold readBytes at ih ⊢
    rw [List.range_succ, List.map_append, List.sum_append, ih]
    have : spikeBuffer (n + 2) = 0 := by
      unfold spikeBuffer
      rw [if_neg (by omega)]
    simp [this]

theorem toyDigest_congr (m1 m2 : List Nat) (h : m1.sum = m2.sum) :
    toyDigest m1 = toyDigest m2 := by
  unfold toyDigest
  rw [h]

/-- Counterexample to the signing pipeline without length bounds.  With a transaction of 65537
bytes the three oracle calls complete, but the signature that `crypto_sign` returns
is not the one the oracle gives for `Keccak256` of the 65537 bytes: the length is
stored in the `uint16_t` `messageLen`, and the outcome is that of the one-byte
transaction.  With a signing oracle that returns the `int` -1, `*sigSize` is 65535
and not the reported length. -/
theorem crypto_sign_truncates_lengths :
    (∃ d k r st,
      longTxPlatform.os_perso_derive_node_bip32 longTxPlatform.CX_CURVE_SECP256K1
        [44, 118, 0, 0, 0] HDPATH_LEN_DEFAULT (fun _ => 2) = Try.done d ∧
      longTxPlatform.cx_ecfp_init_private_key longTxPlatform.CX_CURVE_SECP256K1 d 32
        (fun _ => 1) = Try.done k ∧
      longTxPlatform.cx_ecdsa_sign k
        (longTxPlatform.CX_RND_RFC6979 ||| longTxPlatform.CX_LAST) longTxPlatform.CX_SHA256
        (readBytes (longTxPlatform.keccak256
          (readBytes longTxPlatform.tx_get_buffer longTxPlatform.tx_get_buffer_length)) 32)
        32 (fun _ => 0) 100 0 = Try.done r ∧
      crypto_sign longTxPlatform [44, 118, 0, 0, 0] (fun _ => 0) 100 (fun _ => 1) (fun _ => 2)
        = Outcome.returned zxerr_ok st ∧
      st.signature 0 ≠ r.1 0) ∧
    crypto_sign longTxPlatform [44, 118, 0, 0, 0] (fun _ => 0) 100 (fun _ => 1) (fun _ => 2)
      = crypto_sign { longTxPlatform with tx_get_buffer_length := 1 } [44, 118, 0, 0, 0]
          (fun _ => 0) 100 (fun _ => 1) (fun _ => 2) ∧
    (∃ d k r st,
      negativeLengthPlatform.os_perso_derive_node_bip32
        negativeLengthPlatform.CX_CURVE_SECP256K1
        [44, 118, 0, 0, 0] HDPATH_LEN_DEFAULT (fun _ => 2) = Try.done d ∧
      negativeLengthPlatform.cx_ecfp_init_private_key
        negativeLengthPlatform.CX_CURVE_SECP256K1 d 32 (fun _ => 1) = Try.done k ∧
      negativeLengthPlatform.cx_ecdsa_sign k
        (negativeLengthPlatform.CX_RND_RFC6979 ||| negativeLengthPlatform.CX_LAST)
        negativeLengthPlatform.CX_SHA256
        (readBytes (negativeLengthPlatform.keccak256
          (readBytes negativeLengthPlatform.tx_get_buffer
            negativeLengthPlatform.tx_get_buffer_length)) 32)
        32 (fun _ => 0) 100 0 = Try.done r ∧
      crypto_sign negativeLengthPlatform [44, 118, 0, 0, 0] (fun _ => 0) 100
        (fun _ => 1) (fun _ => 2) = Outcome.returned zxerr_ok st ∧
      st.sigSize = 65535 ∧ (st.sigSize : Int) ≠ r.2.2) := by
  refine ⟨?_, rfl, ?_⟩
  · have key : longTxPlatform.keccak256
        (readBytes longTxPlatform.tx_get_buffer longTxPlatform.tx_get_buffer_length)
        = toyDigest [0, 1] :=
      toyDigest_congr _ _ (spikeBuffer_sum 65535)
    rw [key]
    refine ⟨_, _, _, _, rfl, rfl, rfl, rfl, ?_⟩
    decide
  · refine ⟨_, _, _, _, rfl, rfl, rfl, rfl, ?_, ?_⟩
    · decide
    · decide

/-- C11 (amended): when the transaction length is below `2^16`, so that it fits the
`uint16_t` `messageLen`, `crypto_sign` hands the signing oracle the key that the
derivation at the session `hdPath` yields and exactly the 32 bytes
`Keccak256(tx buffer[0 .. tx length))`; when the three oracle calls complete and the
reported length lies between 0 and `2^16 - 1`, so that it fits the `uint16_t`
`*sigSize`, it returns `zxerr_ok` with the oracle's signature and `*sigSize` equal
to the reported length.  The transaction buffer matters only through that digest:
with another buffer shorter than `2^16` that has the same digest, and path,
platform and arguments the same, `crypto_sign` leaves the same result. -/
theorem crypto_sign_pipeline (P : Platform) (hdPath : List Nat) (signature : Mem)
    (signatureMaxlen : Nat) (stack_cx_privateKey stack_privateKeyData : Mem)
    (hlen : P.tx_get_buffer_length < 2 ^ 16) :
    (∀ (d k : Mem) (r : Mem × Nat × Int),
      P.os_perso_derive_node_bip32 P.CX_CURVE_SECP256K1 hdPath HDPATH_LEN_DEFAULT
        stack_privateKeyData = Try.done d →
      P.cx_ecfp_init_private_key P.CX_CURVE_SECP256K1 d 32 stack_cx_privateKey
        = Try.done k →
      P.cx_ecdsa_sign k (P.CX_RND_RFC6979 ||| P.CX_LAST) P.CX_SHA256
        (readBytes (P.keccak256 (readBytes P.tx_get_buffer P.tx_get_buffer_length)) 32)
        32 signature signatureMaxlen 0 = Try.done r →
      0 ≤ r.2.2 → r.2.2 < 2 ^ 16 →
      ∃ st, crypto_sign P hdPath signature signatureMaxlen stack_cx_privateKey
          stack_privateKeyData = Outcome.returned zxerr_ok st ∧
        st.signature = r.1 ∧ (st.sigSize : Int) = r.2.2) ∧
    (∀ (buf : Mem) (len : Nat), len < 2 ^ 16 →
      readBytes (P.keccak256 (readBytes buf len)) 32
        = readBytes (P.keccak256 (readBytes P.tx_get_buffer P.tx_get_buffer_length)) 32 →
      crypto_sign { P with tx_get_buffer := buf, tx_get_buffer_length := len } hdPath
          signature signatureMaxlen stack_cx_privateKey stack_privateKeyData
        = crypto_sign P hdPath signature signatureMaxlen stack_cx_privateKey
          stack_privateKeyData) := by
  have hd := crypto_sign_digest P hlen
  refine ⟨fun d k r hderive hinit hsign h0 h16 => ?_, fun buf len hl hdig => ?_⟩
  · have hs := signDigest_done P hdPath
      (keccak_hash_message P P.tx_get_buffer (P.tx_get_buffer_length % 2 ^ 16)
        (MEMZERO (fun _ => 0) CX_SHA256_SIZE))
      signatureMaxlen ⟨signature, stack_cx_privateKey, stack_privateKeyData, 0, 0⟩ d k r
      hderive hinit (by rw [hd]; exact hsign)
    refine ⟨_, crypto_sign_done P hdPath signature signatureMaxlen stack_cx_privateKey
      stack_privateKeyData _ hs, rfl, ?_⟩
    show (((r.2.2 % 2 ^ 16).toNat : Nat) : Int) = r.2.2
    rw [Int.emod_eq_of_lt h0 h16, Int.toNat_of_nonneg h0]
  · have hd' := crypto_sign_digest
      { P with tx_get_buffer := buf, tx_get_buffer_length := len } hl
    have hc := signDigest_congr P hdPath
      (keccak_hash_message { P with tx_get_buffer := buf, tx_get_buffer_length := len } buf
        (len % 2 ^ 16) (MEMZERO (fun _ => 0) CX_SHA256_SIZE))
      (keccak_hash_message P P.tx_get_buffer (P.tx_get_buffer_length % 2 ^ 16)
        (MEMZERO (fun _ => 0) CX_SHA256_SIZE))
      signatureMaxlen ⟨signature, stack_cx_privateKey, stack_privateKeyData, 0, 0⟩
      (by rw [hd]; exact hd'.trans hdig)
    unfold crypto_sign
    simp only []
    have hc' : signDigest { P with tx_get_buffer := buf, tx_get_buffer_length := len } hdPath
        (keccak_hash_message { P with tx_get_buffer := buf, tx_get_buffer_length := len } buf
          (len % 2 ^ 16) (MEMZERO (fun _ => 0) CX_SHA256_SIZE))
        signatureMaxlen ⟨signature, stack_cx_privateKey, stack_privateKeyData, 0, 0⟩
        = signDigest P hdPath
        (keccak_hash_message P P.tx_get_buffer (P.tx_get_buffer_length % 2 ^ 16)
          (MEMZERO (fun _ => 0) CX_SHA256_SIZE))
        signatureMaxlen ⟨signature, stack_cx_privateKey, stack_privateKeyData, 0, 0⟩ :=
      hc
    rw [hc']


/-- Witness on the sample platform: the signature has 70 bytes, and the one-byte
transaction 86 has the digest of the sample transaction. -/
theorem crypto_sign_pipeline_witness :
    (∃ st, crypto_sign (samplePlatform 0) [44, 118, 0, 0, 0] (fun _ => 0) 100
        (fun _ => 1) (fun _ => 2) = Outcome.returned zxerr_ok st ∧ (st.sigSize : Int) = 70) ∧
    crypto_sign { samplePlatform 0 with tx_get_buffer := fun _ => 86, tx_get_buffer_length := 1 }
        [44, 118, 0, 0, 0] (fun _ => 0) 100 (fun _ => 1) (fun _ => 2)
      = crypto_sign (samplePlatform 0) [44, 118, 0, 0, 0] (fun _ => 0) 100
        (fun _ => 1) (fun _ => 2) := by
  have h := crypto_sign_pipeline (samplePlatform 0) [44, 118, 0, 0, 0] (fun _ => 0) 100
    (fun _ => 1) (fun _ => 2) (by norm_num [samplePlatform])
  obtain ⟨st, hst, _, hsz⟩ := h.1 _ _ _ rfl rfl rfl (by decide) (by decide)
  exact ⟨⟨st, hst, hsz⟩, h.2 (fun _ => 86) 1 (by norm_num) (by decide)⟩

/-! ## Zeroization of the key scratch -/

theorem crypto_extractPublicKey_zeroed (P : Platform) (path : List Nat) (pubKey : Mem)
    (pubKeyLen : Nat) (stack : KeyLocals) (hlen : 33 ≤ pubKeyLen) :
    ∃ err st, crypto_extractPublicKey P path pubKey pubKeyLen stack = .returned err st ∧
      (∀ i, i < 32 → st.locals.privateKeyData i = 0) ∧
      (∀ i, i < P.sizeof_cx_ecfp_private_key_t → st.locals.cx_privateKey i = 0) := by
  cases h : generateKeyPair P path stack with
  | done l =>
    refine ⟨_, _, crypto_extractPublicKey_done P path pubKey pubKeyLen stack l hlen h, ?_, ?_⟩
    · intro i hi; simp only [MEMZERO, if_pos hi]
    · intro i hi; simp only [MEMZERO, if_pos hi]
  | raised e l =>
    refine ⟨_, _, crypto_extractPublicKey_raised P path pubKey pubKeyLen stack l e hlen h,
      ?_, ?_⟩
    · intro i hi; simp only [MEMZERO, if_pos hi]
    · intro i hi; simp only [MEMZERO, if_pos hi]

theorem crypto_fillETHAddress_zeroed (P : Platform) (hdPath : List Nat) (buffer : Mem)
    (buffer_len addrResponseLen : Nat) (stack : KeyLocals) (hlen : 53 ≤ buffer_len) :
    ∃ err st, crypto_fillETHAddress P hdPath buffer buffer_len addrResponseLen stack
        = .returned err st ∧
      (∀ i, i < 32 → st.locals.privateKeyData i = 0) ∧
      (∀ i, i < P.sizeof_cx_ecfp_private_key_t → st.locals.cx_privateKey i = 0) := by
  cases h : generateKeyPair P hdPath stack with
  | done l =>
    refine ⟨_, _, crypto_fillETHAddress_done P hdPath buffer buffer_len addrResponseLen stack l
      hlen h, ?_, ?_⟩
    · intro i hi; simp only [MEMZERO, if_pos hi]
    · intro i hi; simp only [MEMZERO, if_pos hi]
  | raised e l =>
    refine ⟨_, _, crypto_fillETHAddress_raised P hdPath buffer buffer_len addrResponseLen stack
      l e hlen h, ?_, ?_⟩
    · intro i hi; simp only [MEMZERO, if_pos hi]
    · intro i hi; simp only [MEMZERO, if_pos hi]

theorem crypto_sign_zeroed (P : Platform) (hdPath : List Nat) (signature : Mem)
    (signatureMaxlen : Nat) (k d : Mem) :
    ∃ err st, crypto_sign P hdPath signature signatureMaxlen k d = .returned err st ∧
      (∀ i, i < 32 → st.frame.privateKeyData i = 0) ∧
      (∀ i, i < P.sizeof_cx_ecfp_private_key_t → st.frame.cx_privateKey i = 0) := by
  unfold crypto_sign
  refine ⟨_, _, rfl, ?_, ?_⟩
  · intro i hi; simp only [MEMZERO, if_pos hi]
  · intro i hi; simp only [MEMZERO, if_pos hi]

/-- C12 (secret zeroization on every exit): when `crypto_extractPublicKey`
(`pubKeyLen ≥ 33`), `crypto_fillETHAddress` (`buffer_len ≥ 53`) and `crypto_sign`
reach the secure-element calls, they return normally, whether the calls complete
or raise, and at the return the 32 bytes of `privateKeyData` and the
`sizeof(cx_privateKey)` bytes of `cx_privateKey` are all zero. -/
theorem secrets_zeroed_on_every_exit (P : Platform) (hdPath path : List Nat)
    (buffer signature : Mem) (buffer_len addrResponseLen pubKeyLen signatureMaxlen : Nat)
    (stack : KeyLocals) (stack_cx_privateKey stack_privateKeyData : Mem) :
    (33 ≤ pubKeyLen →
      ∃ err st, crypto_extractPublicKey P path buffer pubKeyLen stack
          = Outcome.returned err st ∧
        (∀ i, i < 32 → st.locals.privateKeyData i = 0) ∧
        (∀ i, i < P.sizeof_cx_ecfp_private_key_t → st.locals.cx_privateKey i = 0)) ∧
    (33 + 20 ≤ buffer_len →
      ∃ err st, crypto_fillETHAddress P hdPath buffer buffer_len addrResponseLen stack
          = Outcome.returned err st ∧
        (∀ i, i < 32 → st.locals.privateKeyData i = 0) ∧
        (∀ i, i < P.sizeof_cx_ecfp_private_key_t → st.locals.cx_privateKey i = 0)) ∧
    (∃ err st, crypto_sign P hdPath signature signatureMaxlen stack_cx_privateKey
          stack_privateKeyData = Outcome.returned err st ∧
        (∀ i, i < 32 → st.frame.privateKeyData i = 0) ∧
        (∀ i, i < P.sizeof_cx_ecfp_private_key_t → st.frame.cx_privateKey i = 0)) :=
  ⟨fun h => crypto_extractPublicKey_zeroed P path buffer pubKeyLen stack h,
   fun h => crypto_fillETHAddress_zeroed P hdPath buffer buffer_len addrResponseLen stack
     (by omega),
   crypto_sign_zeroed P hdPath signature signatureMaxlen stack_cx_privateKey
     stack_privateKeyData⟩

/-- Witness on sample platforms whose key calls complete, whose third key call raises
and whose signing call raises. -/
theorem secrets_zeroed_on_every_exit_witness :
    (∃ st, crypto_extractPublicKey (samplePlatform 0) [44, 118, 0, 0, 0] (fun _ => 0) 33
        sampleStack = Outcome.returned zxerr_ok st ∧
      st.locals.privateKeyData 31 = 0 ∧ st.locals.cx_privateKey 39 = 0) ∧
    (∃ st, crypto_fillETHAddress (samplePlatform 3) [44, 118, 0, 0, 0] (fun _ => 0) 53 0
        sampleStack = Outcome.returned zxerr_ledger_api_error st ∧
      st.locals.privateKeyData 31 = 0 ∧ st.locals.cx_privateKey 39 = 0) ∧
    (∃ st, crypto_sign (samplePlatform 4) [44, 118, 0, 0, 0] (fun _ => 0) 100
        (fun _ => 1) (fun _ => 2) = Outcome.returned zxerr_ledger_api_error st ∧
      st.frame.privateKeyData 31 = 0 ∧ st.frame.cx_privateKey 39 = 0) := by
  obtain ⟨e1, s1, h1, a1, b1⟩ :=
    (secrets_zeroed_on_every_exit (samplePlatform 0) [] [44, 118, 0, 0, 0] (fun _ => 0)
      (fun _ => 0) 0 0 33 0 sampleStack (fun _ => 0) (fun _ => 0)).1 (by decide)
  obtain ⟨e2, s2, h2, a2, b2⟩ :=
    (secrets_zeroed_on_every_exit (samplePlatform 3) [44, 118, 0, 0, 0] [] (fun _ => 0)
      (fun _ => 0) 53 0 0 0 sampleStack (fun _ => 0) (fun _ => 0)).2.1 (by decide)
  obtain ⟨e3, s3, h3, a3, b3⟩ :=
    (secrets_zeroed_on_every_exit (samplePlatform 4) [44, 118, 0, 0, 0] [] (fun _ => 0)
      (fun _ => 0) 0 0 0 100 sampleStack (fun _ => 1) (fun _ => 2)).2.2
  have g1 := crypto_extractPublicKey_done (samplePlatform 0) [44, 118, 0, 0, 0] (fun _ => 0) 33
    sampleStack _ (by decide) rfl
  have g2 := crypto_fillETHAddress_raised (samplePlatform 3) [44, 118, 0, 0, 0] (fun _ => 0) 53 0
    sampleStack _ _ (by decide) rfl
  have g3 : crypto_sign (samplePlatform 4) [44, 118, 0, 0, 0] (fun _ => 0) 100
      (fun _ => 1) (fun _ => 2) = Outcome.returned zxerr_ledger_api_error _ :=
    crypto_sign_raised (samplePlatform 4) [44, 118, 0, 0, 0] (fun _ => 0) 100
      (fun _ => 1) (fun _ => 2) _ _ rfl
  rw [g1] at h1; rw [g2] at h2; rw [g3] at h3
  cases h1; cases h2; cases h3
  exact ⟨⟨_, g1, a1 31 (by decide), b1 39 (by decide)⟩,
    ⟨_, g2, a2 31 (by decide), b2 39 (by decide)⟩,
    ⟨_, g3, a3 31 (by decide), b3 39 (by decide)⟩⟩

/-! ## Checksum idempotence -/

theorem hexValue_lower_eip55Char (a h : Mem) (i : Nat) :
    hexValue (asciiToLower (eip55Char a h i)) = nibble a i := by
  have hn := nibble_lt a i
  unfold eip55Char lowerHexChar upperHexChar asciiToLower hexValue
  split_ifs <;> omega

theorem decodeAddressString_eth (P : Platform) (a r : Mem) (k : Nat) (hk : k < 20)
    (hbyte : a k < 256) :
    decodeAddressString (crypto_eth_address_bytes_to_string P a r).2 k = a k := by
  unfold decodeAddressString hexDecode
  simp only []
  rw [eth_string_char P a r (2 * k) (by omega), eth_string_char P a r (2 * k + 1) (by omega),
    hexValue_lower_eip55Char, hexValue_lower_eip55Char]
  unfold nibble
  have e1 : 2 * k % 2 = 0 := by omega
  have e2 : (2 * k + 1) % 2 ≠ 0 := by omega
  have e3 : 2 * k / 2 = k := by omega
  have e4 : (2 * k + 1) / 2 = k := by omega
  rw [if_pos e1, if_neg e2, e3, e4]
  omega

/-- C13 (checksum idempotence): for every 20-byte address `a` and every Keccak oracle,
lower-casing and hex-decoding the 40 characters that
`crypto_eth_address_bytes_to_string` writes after `0x` gives `a` again, and the
function applied to the decoded bytes writes the same 42 characters. -/
theorem crypto_eth_address_bytes_to_string_idempotent (P : Platform) (a r r' : Mem)
    (hbytes : ∀ i, i < 20 → a i < 256) :
    (∀ k, k < 20 →
      decodeAddressString (crypto_eth_address_bytes_to_string P a r).2 k = a k) ∧
    (∀ j, j < 42 →
      (crypto_eth_address_bytes_to_string P
        (decodeAddressString (crypto_eth_address_bytes_to_string P a r).2) r').2 j
        = (crypto_eth_address_bytes_to_string P a r).2 j) :=
  ⟨fun k hk => decodeAddressString_eth P a r k hk (hbytes k hk),
   fun j hj => eth_string_congr P _ a r' r
     (fun k hk => decodeAddressString_eth P a r k hk (hbytes k hk)) j hj⟩

/-- Witness on the sample address, whose first byte is `0xab`. -/
theorem crypto_eth_address_bytes_to_string_idempotent_witness :
    decodeAddressString
      (crypto_eth_address_bytes_to_string (samplePlatform 0) sampleAddress (fun _ => 0)).2 0
      = 171 ∧
    (crypto_eth_address_bytes_to_string (samplePlatform 0)
      (decodeAddressString
        (crypto_eth_address_bytes_to_string (samplePlatform 0) sampleAddress (fun _ => 0)).2)
      (fun _ => 7)).2 2
      = (crypto_eth_address_bytes_to_string (samplePlatform 0) sampleAddress (fun _ => 0)).2 2 := by
  have h := crypto_eth_address_bytes_to_string_idempotent (samplePlatform 0) sampleAddress
    (fun _ => 0) (fun _ => 7) (fun i _ => Nat.mod_lt _ (by decide))
  exact ⟨h.1 0 (by decide), h.2 2 (by decide)⟩

/-! ## The HRP registry, continued -/

/-- C14 (`crypto_set_hrp` accepts exactly the short strings): with
`MAX_BECH32_HRP_LEN ≤ 255`, for a string `p` with `strlen(p) < MAX_BECH32_HRP_LEN`
the stored `bech32_hrp` holds the characters of `p` followed by a NUL and
`bech32_hrp_len = strlen(p)`; a string of length exactly `MAX_BECH32_HRP_LEN`
leaves `bech32_hrp` as it was. -/
theorem crypto_set_hrp_accepts_short (M : Nat) (p : List Nat) (g : HrpState)
    (hM : M ≤ 255) :
    (p.length < M →
      (∀ i, i < p.length → (crypto_set_hrp M p g).bech32_hrp i = p.getD i 0) ∧
      (crypto_set_hrp M p g).bech32_hrp p.length = 0 ∧
      (crypto_set_hrp M p g).bech32_hrp_len = p.length) ∧
    (p.length = M → (crypto_set_hrp M p g).bech32_hrp = g.bech32_hrp) := by
  refine ⟨fun hlt => ?_, fun heq => ?_⟩
  · have hmod : p.length % 2 ^ 8 = p.length := Nat.mod_eq_of_lt (by norm_num; omega)
    have hst := crypto_set_hrp_of_lt M p g (by rw [hmod]; exact hlt)
    have hmin : min p.length M = p.length := by omega
    rw [hst]
    refine ⟨fun i hi => ?_, ?_, hmod⟩
    · simp only []
      rw [snprintf_s_apply, hmin, if_neg (by omega), if_pos hi]
    · simp only []
      rw [snprintf_s_apply, hmin, if_pos rfl]
  · have hmod : p.length % 2 ^ 8 = p.length := Nat.mod_eq_of_lt (by norm_num; omega)
    rw [crypto_set_hrp_of_not_lt M p g (by rw [hmod]; omega)]

/-- Witness: the two-letter string is stored under the limit 83 and not stored under
the limit 2. -/
theorem crypto_set_hrp_accepts_short_witness :
    ((crypto_set_hrp 83 [102, 120] initialHrpState).bech32_hrp 0 = 102 ∧
      (crypto_set_hrp 83 [102, 120] initialHrpState).bech32_hrp 1 = 120 ∧
      (crypto_set_hrp 83 [102, 120] initialHrpState).bech32_hrp 2 = 0 ∧
      (crypto_set_hrp 83 [102, 120] initialHrpState).bech32_hrp_len = 2) ∧
    (crypto_set_hrp 2 [102, 120] sampleHrpState).bech32_hrp = sampleHrpState.bech32_hrp := by
  have h := (crypto_set_hrp_accepts_short 83 [102, 120] initialHrpState (by decide)).1
    (by decide)
  exact ⟨⟨h.1 0 (by decide), h.1 1 (by decide), h.2.1, h.2.2⟩,
    (crypto_set_hrp_accepts_short 2 [102, 120] sampleHrpState (by decide)).2 rfl⟩

/-- C15 (the code at the failing input): with `MAX_BECH32_HRP_LEN = 83` and the HRP
`"fx"` of length 2 configured, `crypto_set_hrp` of a string of 100 letters `a`
leaves `bech32_hrp` unchanged but sets `bech32_hrp_len` to 100: the length is
assigned before the guard. -/
theorem crypto_set_hrp_changes_length_on_rejection :
    83 ≤ string100.length ∧
    sampleHrpState.bech32_hrp_len = 2 ∧
    (crypto_set_hrp 83 string100 sampleHrpState).bech32_hrp = sampleHrpState.bech32_hrp ∧
    (crypto_set_hrp 83 string100 sampleHrpState).bech32_hrp_len = 100 := by
  have hlen : string100.length = 100 := List.length_replicate _ _
  have hst := crypto_set_hrp_of_not_lt 83 string100 sampleHrpState
    (by rw [hlen]; norm_num)
  rw [hst, hlen]
  exact ⟨by norm_num, rfl, rfl, by norm_num⟩

theorem strlenFrom_le (s : Mem) (n : Nat) (hz : s n = 0) (fuel i : Nat) (hi : i ≤ n) :
    strlenFrom s fuel i ≤ n := by
  induction fuel generalizing i with
  | zero => exact hi
  | succ fuel ih =>
    unfold strlenFrom
    by_cases h : s i = 0
    · rw [if_pos h]; exact hi
    · rw [if_neg h]
      have : i ≠ n := fun e => h (e ▸ hz)
      exact ih (i + 1) (by omega)

/-- C16 (the stored HRP is always NUL-terminated): in every state reachable from the
zero-initialised globals by `crypto_set_hrp` and `extractHRP` calls,
`bech32_hrp[MAX_BECH32_HRP_LEN] = 0`, so the array holds a zero byte within its
`MAX_BECH32_HRP_LEN + 1` bytes and its string length is at most
`MAX_BECH32_HRP_LEN`. -/
theorem bech32_hrp_always_terminated (M : Nat) (g : HrpState) (h : Reachable M g) :
    g.bech32_hrp M = 0 ∧
    (∃ i, i < M + 1 ∧ g.bech32_hrp i = 0) ∧
    strlen g.bech32_hrp (M + 1) ≤ M := by
  have hz := reachable_last_zero M g h
  exact ⟨hz, ⟨M, Nat.lt_succ_self M, hz⟩, strlenFrom_le g.bech32_hrp M hz (M + 1) 0 (Nat.zero_le M)⟩

/-- Witness: the state after two `crypto_set_hrp` calls, the second with a string of
256 letters. -/
theorem bech32_hrp_always_terminated_witness :
    (crypto_set_hrp 83 string256 (crypto_set_hrp 83 [102, 120, 49] initialHrpState)).bech32_hrp 83
      = 0 ∧
    strlen (crypto_set_hrp 83 string256
      (crypto_set_hrp 83 [102, 120, 49] initialHrpState)).bech32_hrp (83 + 1) ≤ 83 := by
  have h := bech32_hrp_always_terminated 83 _
    (Reachable.set_hrp string256 (Reachable.set_hrp [102, 120, 49] Reachable.init))
  exact ⟨h.1, h.2.2⟩

/-- Counterexample to the byte-order reversal: on the sample platform, whose key
oracle leaves the point `samplePoint`, the bytes `pubKey[1..32]` are not the
bytes `W[32], …, W[1]`. -/
theorem crypto_extractPublicKey_not_reversed :
    ∃ l st, generateKeyPair (samplePlatform 0) [44, 118, 0, 0, 0] sampleStack = Try.done l ∧
      l.cx_publicKey.W = samplePoint ∧
      crypto_extractPublicKey (samplePlatform 0) [44, 118, 0, 0, 0] (fun _ => 0) 33
        sampleStack = Outcome.returned zxerr_ok st ∧
      ¬ (∀ j, 1 ≤ j → j ≤ 32 → st.pubKey j = l.cx_publicKey.W (33 - j)) := by
  refine ⟨_, _, rfl, rfl, crypto_extractPublicKey_done (samplePlatform 0) [44, 118, 0, 0, 0]
    (fun _ => 0) 33 sampleStack _ (by decide) rfl, fun h => ?_⟩
  have h1 := h 1 (by decide) (by decide)
  revert h1
  decide

/-- C18 (amended): the 32 bytes that `crypto_extractPublicKey` writes at
`pubKey[1..32]` are the bytes `W[1..32]` of the source point in the same order. -/
theorem crypto_extractPublicKey_keeps_byte_order (P : Platform) (path : List Nat)
    (pubKey : Mem) (pubKeyLen : Nat) (stack l : KeyLocals) (hlen : 33 ≤ pubKeyLen)
    (hgen : generateKeyPair P path stack = Try.done l) :
    ∃ st, crypto_extractPublicKey P path pubKey pubKeyLen stack = Outcome.returned zxerr_ok st ∧
      (∀ j, 1 ≤ j → j ≤ 32 → st.pubKey j = l.cx_publicKey.W j) := by
  refine ⟨_, crypto_extractPublicKey_done P path pubKey pubKeyLen stack l hlen hgen, ?_⟩
  intro j h1 h2
  have h3 : j < 33 := by omega
  have h4 : j ≠ 0 := by omega
  simp [compressInto, h3, h4]

/-- Witness on the sample platform. -/
theorem crypto_extractPublicKey_keeps_byte_order_witness :
    ∃ st, crypto_extractPublicKey (samplePlatform 0) [44, 118, 0, 0, 0] (fun _ => 0) 33
        sampleStack = Outcome.returned zxerr_ok st ∧
      st.pubKey 1 = samplePoint 1 ∧ st.pubKey 2 = samplePoint 2 ∧
      st.pubKey 32 = samplePoint 32 := by
  obtain ⟨st, h, hX⟩ :=
    crypto_extractPublicKey_keeps_byte_order (samplePlatform 0) [44, 118, 0, 0, 0]
      (fun _ => 0) 33 sampleStack _ (by decide) rfl
  exact ⟨st, h, hX 1 (by decide) (by decide), hX 2 (by decide) (by decide),
    hX 32 (by decide) (by decide)⟩

theorem compressInto_congr (W1 W2 b1 b2 : Mem)
    (hW : ∀ j, 1 ≤ j → j ≤ 64 → W1 j = W2 j) (j : Nat) (hj : j < 33) :
    compressInto W1 b1 j = compressInto W2 b2 j := by
  unfold compressInto
  rw [if_pos hj, if_pos hj, hW 64 (by decide) (by decide)]
  by_cases h0 : j = 0
  · rw [if_pos h0, if_pos h0]
  · rw [if_neg h0, if_neg h0, hW j (by omega) (by omega)]

theorem crypto_fillAddress_key (P : Platform) (hdPath : List Nat) (bech32_hrp buffer : Mem)
    (buffer_len addrResponseLen : Nat) (stack : KeyLocals) (k : PubKeyState)
    (hlen : 83 ≤ buffer_len)
    (hkey : crypto_extractPublicKey P hdPath buffer buffer_len stack
      = Outcome.returned zxerr_ok k) :
    ∃ err st, crypto_fillAddress P hdPath bech32_hrp buffer buffer_len addrResponseLen stack
        = .returned err st ∧ ∀ j, j < 33 → st.buffer j = k.pubKey j := by
  unfold crypto_fillAddress
  rw [if_neg (by unfold PK_LEN_SECP256K1; omega), hkey]
  simp only [ne_eq, not_true_eq_false, if_false]
  split
  · exact ⟨_, _, rfl, fun j hj => by simp only [writeBack, PK_LEN_SECP256K1, if_pos hj]⟩
  · exact ⟨_, _, rfl, fun j hj => by simp only [writeBack, PK_LEN_SECP256K1, if_pos hj]⟩

/-- C19 (both address families report the same public key): when the key oracle
completes with the same point for `crypto_fillETHAddress`, `crypto_extractPublicKey`
and `crypto_fillAddress`, the 33 bytes that `crypto_fillETHAddress` leaves in
`buffer[0..32]` are the 33 bytes that `crypto_extractPublicKey` writes, and the 33
bytes that `crypto_fillAddress` leaves in `buffer[0..32]`. -/
theorem address_families_report_same_key (P : Platform) (hdPath path : List Nat)
    (bech32_hrp bufE bufX bufA : Mem) (lenE lenX lenA respE respA : Nat)
    (stackE stackX stackA lE lX lA : KeyLocals)
    (hlenE : 33 + 20 ≤ lenE) (hlenX : 33 ≤ lenX) (hlenA : 33 + 50 ≤ lenA)
    (hgenE : generateKeyPair P hdPath stackE = Try.done lE)
    (hgenX : generateKeyPair P path stackX = Try.done lX)
    (hgenA : generateKeyPair P hdPath stackA = Try.done lA)
    (hWX : ∀ j, 1 ≤ j → j ≤ 64 → lE.cx_publicKey.W j = lX.cx_publicKey.W j)
    (hWA : ∀ j, 1 ≤ j → j ≤ 64 → lE.cx_publicKey.W j = lA.cx_publicKey.W j) :
    ∃ stE stX errA stA,
      crypto_fillETHAddress P hdPath bufE lenE respE stackE = Outcome.returned zxerr_ok stE ∧
      crypto_extractPublicKey P path bufX lenX stackX = Outcome.returned zxerr_ok stX ∧
      crypto_fillAddress P hdPath bech32_hrp bufA lenA respA stackA
        = Outcome.returned errA stA ∧
      (∀ j, j < 33 → stE.buffer j = stX.pubKey j) ∧
      (∀ j, j < 33 → stE.buffer j = stA.buffer j) := by
  have hE := crypto_fillETHAddress_done P hdPath bufE lenE respE stackE lE (by omega) hgenE
  have hX := crypto_extractPublicKey_done P path bufX lenX stackX lX hlenX hgenX
  have hK := crypto_extractPublicKey_done P hdPath bufA lenA stackA lA (by omega) hgenA
  obtain ⟨errA, stA, hA, hAk⟩ := crypto_fillAddress_key P hdPath bech32_hrp bufA lenA respA
    stackA _ (by omega) hK
  refine ⟨_, _, errA, stA, hE, hX, hA, fun j hj => ?_, fun j hj => ?_⟩
  · simp only [writeBack, if_pos hj]
    exact compressInto_congr _ _ _ _ hWX j hj
  · rw [hAk j hj]
    simp only [writeBack, if_pos hj]
    exact compressInto_congr _ _ _ _ hWA j hj

/-- Witness on the sample platform, with three different buffers. -/
theorem address_families_report_same_key_witness :
    ∃ stE stX errA stA,
      crypto_fillETHAddress (samplePlatform 0) [44, 118, 0, 0, 0] (fun _ => 0) 75 0 sampleStack
        = Outcome.returned zxerr_ok stE ∧
      crypto_extractPublicKey (samplePlatform 0) [44, 118, 0, 0, 0] (fun i => i) 33 sampleStack
        = Outcome.returned zxerr_ok stX ∧
      crypto_fillAddress (samplePlatform 0) [44, 118, 0, 0, 0]
        (fun i => if i < 3 then 100 + i else 0) (fun _ => 9) 83 0 sampleStack
        = Outcome.returned errA stA ∧
      (∀ j, j < 33 → stE.buffer j = stX.pubKey j) ∧
      (∀ j, j < 33 → stE.buffer j = stA.buffer j) :=
  address_families_report_same_key (samplePlatform 0) [44, 118, 0, 0, 0] [44, 118, 0, 0, 0]
    (fun i => if i < 3 then 100 + i else 0) (fun _ => 0) (fun i => i) (fun _ => 9) 75 33 83 0 0
    sampleStack sampleStack sampleStack _ _ _ (by decide) (by decide) (by decide) rfl rfl rfl
    (fun _ _ _ => rfl) (fun _ _ _ => rfl)

/-! ## Aborted extraction -/

/-- C20 (state left by an aborted `extractHRP`): when it aborts because
`rx < offset + 1`, the HRP globals are unchanged; when it aborts because the length
byte is 0 or exceeds `MAX_BECH32_HRP_LEN`, then `bech32_hrp[i] = 0` for every
`i < MAX_BECH32_HRP_LEN` and `bech32_hrp_len` holds the rejected length byte. -/
theorem extractHRP_abort_state (M : Nat) (G : Mem) (rx offset : Nat) (g : HrpState) :
    (rx < (offset + 1) % 2 ^ 32 →
      extractHRP M G rx offset g = Outcome.thrown APDU_CODE_DATA_INVALID g) ∧
    (¬ rx < (offset + 1) % 2 ^ 32 → (G offset = 0 ∨ G offset > M) →
      ∃ g', extractHRP M G rx offset g = Outcome.thrown APDU_CODE_DATA_INVALID g' ∧
        (∀ i, i < M → g'.bech32_hrp i = 0) ∧
        g'.bech32_hrp_len = G offset) := by
  refine ⟨fun h => extractHRP_short M G rx offset g h, fun h hl => ?_⟩
  refine ⟨_, extractHRP_bad_length M G rx offset g h hl, fun i hi => ?_, rfl⟩
  simp only [MEMZERO, if_pos hi]

/-- Witness: a request that is too short, and a request that declares the length 84. -/
theorem extractHRP_abort_state_witness :
    extractHRP 83 (fun i => if i = 5 then 84 else 97) 5 5 sampleHrpState
      = Outcome.thrown APDU_CODE_DATA_INVALID sampleHrpState ∧
    ∃ g', extractHRP 83 (fun i => if i = 5 then 84 else 97) 6 5 sampleHrpState
        = Outcome.thrown APDU_CODE_DATA_INVALID g' ∧
      g'.bech32_hrp 0 = 0 ∧ g'.bech32_hrp 1 = 0 ∧ g'.bech32_hrp_len = 84 := by
  obtain ⟨g', h, hz, hl⟩ :=
    (extractHRP_abort_state 83 (fun i => if i = 5 then 84 else 97) 6 5 sampleHrpState).2
      (by decide) (by decide)
  exact ⟨(extractHRP_abort_state 83 (fun i => if i = 5 then 84 else 97) 5 5
      sampleHrpState).1 (by decide),
    g', h, hz 0 (by decide), hz 1 (by decide), hl⟩

end LedgerCosmos
